import Mathlib

/-!
Verification of the safety-critic and slide-normalization pipeline of the
safepath-stories backend (`src/backend/app/safety_critic.py` and
`src/backend/app/story_generation.py`).

The Python code works over `dict`/`list`/`str`/`bool`/`int`/`None` values; we
embed those as the inductive type `PyVal`, with dicts as association lists
(Python dicts preserve insertion order, and all dicts built by the pipeline
have unique keys).  Pure Python functions become Lean functions; the two
fallible entry points return `Except String`.  All definitions are structural
recursions so that concrete runs evaluate inside the kernel.
-/

namespace SafePath

/-- Model of the Python values flowing through the pipeline. -/
inductive PyVal where
  | vNone : PyVal
  | vBool (b : Bool) : PyVal
  | vInt (n : Int) : PyVal
  | vStr (s : String) : PyVal
  | vList (xs : List PyVal) : PyVal
  | vDict (fields : List (String × PyVal)) : PyVal

mutual
/-- Structural equality test on `PyVal` (Python `==` on the embedded values). -/
def pyValBEq : PyVal → PyVal → Bool
  | .vNone, .vNone => true
  | .vBool a, .vBool b => a == b
  | .vInt a, .vInt b => a == b
  | .vStr a, .vStr b => a == b
  | .vList a, .vList b => pyListBEq a b
  | .vDict a, .vDict b => pyFieldsBEq a b
  | _, _ => false

/-- Elementwise equality of `PyVal` lists. -/
def pyListBEq : List PyVal → List PyVal → Bool
  | [], [] => true
  | a :: as', b :: bs' => pyValBEq a b && pyListBEq as' bs'
  | _, _ => false

/-- Entrywise equality of dict association lists. -/
def pyFieldsBEq : List (String × PyVal) → List (String × PyVal) → Bool
  | [], [] => true
  | (ka, va) :: as', (kb, vb) :: bs' => ka == kb && pyValBEq va vb && pyFieldsBEq as' bs'
  | _, _ => false
end

instance : BEq PyVal := ⟨pyValBEq⟩

/-- A Python dict, as an insertion-ordered association list with unique keys. -/
abbrev PyDict := List (String × PyVal)

/-- `d.get(k)` / `d.get(k, default)`: first value stored under `k`, if any. -/
def dictGet? (d : PyDict) (k : String) : Option PyVal :=
  match d with
  | [] => Option.none
  | (k', v) :: rest => if k' = k then Option.some v else dictGet? rest k

/-- Python `d.get(k, default)`. -/
def dictGetD (d : PyDict) (k : String) (default : PyVal) : PyVal :=
  (dictGet? d k).getD default

/-- Python `d.get(k)` (default `None`). -/
def dictGet (d : PyDict) (k : String) : PyVal :=
  dictGetD d k .vNone

/-- Python `d[k] = v`: replace the value stored under `k` in place (keeping the
key's position, as Python dicts do), or append a new entry. -/
def dictSet (d : PyDict) (k : String) (v : PyVal) : PyDict :=
  match d with
  | [] => [(k, v)]
  | (k', v') :: rest => if k' = k then (k, v) :: rest else (k', v') :: dictSet rest k v

/-- Python truthiness (`bool(x)` / `if x:`). -/
def pyTruthy : PyVal → Bool
  | .vNone => false
  | .vBool b => b
  | .vInt n => n != 0
  | .vStr s => !s.data.isEmpty
  | .vList xs => !xs.isEmpty
  | .vDict fs => !fs.isEmpty

mutual
/-- Python `repr` for the values above (container rendering follows CPython's
single-quote style; only scalar cases are ever exercised by the pipeline). -/
def pyRepr : PyVal → String
  | .vNone => "None"
  | .vBool true => "True"
  | .vBool false => "False"
  | .vInt n => toString n
  | .vStr s => "'" ++ s ++ "'"
  | .vList xs => "[" ++ pyReprList xs ++ "]"
  | .vDict fs => "\x7b" ++ pyReprFields fs ++ "\x7d"

/-- Comma-separated reprs of a list's elements. -/
def pyReprList : List PyVal → String
  | [] => ""
  | [x] => pyRepr x
  | x :: y :: t => pyRepr x ++ ", " ++ pyReprList (y :: t)

/-- Comma-separated reprs of a dict's entries. -/
def pyReprFields : List (String × PyVal) → String
  | [] => ""
  | [(k, v)] => "'" ++ k ++ "': " ++ pyRepr v
  | (k, v) :: e :: t => "'" ++ k ++ "': " ++ pyRepr v ++ ", " ++ pyReprFields (e :: t)
end

/-- Python `str(x)`: strings are returned as-is, other values via `repr`-style
rendering (`str(True) = "True"`, `str(None) = "None"`, ...). -/
def pyStr : PyVal → String
  | .vStr s => s
  | v => pyRepr v

/-! ### String helpers (over `List Char`, mirroring Python `str` methods) -/

/-- Lower-case a string character-wise (Python `str.lower` on ASCII text). -/
def lowerStr (s : String) : String :=
  String.mk (s.data.map Char.toLower)

/-- Python `needle in hay` (substring containment, left-to-right scan). -/
def listContainsSub (hay needle : List Char) : Bool :=
  match hay with
  | [] => needle.isEmpty
  | _ :: t => needle.isPrefixOf hay || listContainsSub t needle

/-- Python `needle in hay` on strings. -/
def strContains (hay needle : String) : Bool :=
  listContainsSub hay.data needle.data

/-- Whether `c` is Python whitespace (`str.strip` semantics on ASCII). -/
def isPySpace (c : Char) : Bool := c.isWhitespace

/-- Python `str.strip()`. -/
def pyStrip (s : String) : String :=
  String.mk (((s.data.dropWhile isPySpace).reverse.dropWhile isPySpace).reverse)

/-- Python `str.rstrip()`. -/
def pyRStrip (s : String) : String :=
  String.mk ((s.data.reverse.dropWhile isPySpace).reverse)

/-- Python `s[:n]` for a non-negative `n`. -/
def strTake (s : String) (n : Nat) : String :=
  String.mk (s.data.take n)

/-- Python `len(s)`. -/
def strLen (s : String) : Nat := s.data.length

/-! ### Safety critic (`src/backend/app/safety_critic.py`) -/

/-- The relevant fields of `config.Settings`. -/
structure Settings where
  safety_critic_enabled : Bool
  safety_critic_strict : Bool
  safety_critic_max_text_length : Nat
  safety_critic_max_scary_terms_per_slide : Nat
  safety_critic_enable_llm_review : Bool

/-- The defaults declared in `config.Settings`. -/
def defaultSettings : Settings :=
  { safety_critic_enabled := true
    safety_critic_strict := false
    safety_critic_max_text_length := 320
    safety_critic_max_scary_terms_per_slide := 2
    safety_critic_enable_llm_review := false }

/-- `UNSAFE_REPLACEMENTS`, in the dict's insertion order. -/
def UNSAFE_REPLACEMENTS : List (String × String) :=
  [("kill", "hurt"), ("killing", "hurting"), ("dead", "unsafe"), ("blood", "danger"),
   ("weapon", "dangerous object"), ("gun", "dangerous object"), ("knife", "sharp object"),
   ("abduct", "take away"), ("kidnap", "take away"), ("nude", "inappropriate"),
   ("sex", "inappropriate")]

/-- `SCARY_TERMS` (a set in the source; only membership is ever used). -/
def SCARY_TERMS : List String :=
  ["kidnap", "abduct", "blood", "dead", "die", "weapon", "gun", "knife", "attack", "violence"]

/-- `TRUSTED_ADULT_TERMS`. -/
def TRUSTED_ADULT_TERMS : List String :=
  ["trusted adult", "teacher", "parent", "mother", "father", "guardian", "caregiver",
   "police", "counselor"]

/-- The pattern string built by `rf"\\b{re.escape(bad)}\\b"`.  In a raw
f-string `\\b` is the two characters backslash-backslash followed by `b`, which
the regex engine reads as an escaped literal backslash followed by a literal
`b` — so the compiled pattern matches the literal text `\bterm\b`, not a word
boundary around `term`.  The terms contain no regex metacharacters, so after
`re.escape` the whole pattern is a literal string. -/
def wordPattern (term : String) : String := "\\b" ++ term ++ "\\b"

/-- `pattern.search(text)` for the case-insensitive literal pattern above. -/
def searchCI (pat text : String) : Bool :=
  strContains (lowerStr text) (lowerStr pat)

/-- `pattern.sub(replacement, text)` for the case-insensitive literal pattern:
replace each leftmost, non-overlapping occurrence, comparing case-insensitively
but keeping unmatched text as-is.  The first argument arrives lowered.
Fuel-structured (callers pass the haystack length, which always suffices) so
the kernel can evaluate it. -/
def replaceAuxCI (pat rep : List Char) : Nat → List Char → List Char
  | _, [] => []
  | 0, l => l
  | Nat.succ fuel, c :: t =>
    if pat.isPrefixOf ((c :: t).map Char.toLower) then
      rep ++ replaceAuxCI pat rep fuel ((c :: t).drop pat.length)
    else c :: replaceAuxCI pat rep fuel t

/-- `_sanitize_text`: run every `UNSAFE_REPLACEMENTS` pattern over the text in
dict order, recording a change message for each pattern that fired, then strip
the result. -/
def sanitize_text (text : String) : String × List String :=
  let step := fun (acc : String × List String) (pr : String × String) =>
    let pat := wordPattern pr.1
    if searchCI pat acc.1 then
      (String.mk (replaceAuxCI (lowerStr pat).data pr.2.data acc.1.data.length acc.1.data),
       acc.2 ++ ["replaced unsafe term '" ++ pr.1 ++ "'"])
    else acc
  let r := UNSAFE_REPLACEMENTS.foldl step (text, [])
  (pyStrip r.1, r.2)

/-- `_count_scary_terms`: the number of `SCARY_TERMS` whose (broken, literal)
pattern occurs in the lowered text. -/
def count_scary_terms (text : String) : Nat :=
  let value := lowerStr text
  SCARY_TERMS.countP (fun term => strContains value (wordPattern term))

/-- Whether one slide's text or choice text mentions a trusted-adult term
(case-insensitive substring scan, as in `_has_trusted_adult_reference`). -/
def slideTrustedRef (slide : PyDict) : Bool :=
  let text := lowerStr (pyStr (dictGetD slide "text" (.vStr "")))
  TRUSTED_ADULT_TERMS.any (fun term => strContains text term) ||
    (match dictGet slide "choices" with
     | .vList choices =>
       choices.any (fun choice =>
         match choice with
         | .vDict c =>
           let choiceText := lowerStr (pyStr (dictGetD c "text" (.vStr "")))
           TRUSTED_ADULT_TERMS.any (fun term => strContains choiceText term)
         | _ => false)
     | _ => false)

/-- `_has_trusted_adult_reference`. -/
def has_trusted_adult_reference (slides : List PyDict) : Bool :=
  slides.any slideTrustedRef

/-- Fixed fallback text for a malformed or empty choice. -/
def defaultChoiceText : String := "Choose the safer option."

/-- One iteration of the `for index, choice in enumerate(first_two)` loop in
`_coerce_two_choice_branch`. -/
def fixChoice (index : Nat) (choice : PyVal) : PyDict :=
  match choice with
  | .vDict c =>
    let idv := dictGet c "id"
    let id' := pyStr (if pyTruthy idv then idv else .vStr (if index = 0 then "a" else "b"))
    let tv := dictGet c "text"
    let t' := pyStrip (pyStr (if pyTruthy tv then tv else .vStr defaultChoiceText))
    let corr := pyTruthy (dictGetD c "correct" (.vBool (index = 0)))
    dictSet (dictSet (dictSet c "id" (.vStr id')) "text" (.vStr t')) "correct" (.vBool corr)
  | _ =>
    [("id", .vStr (if index = 0 then "a" else "b")),
     ("text", .vStr defaultChoiceText),
     ("correct", .vBool (index = 0))]

/-- The guard `isinstance(choices, list) and len(choices) >= 2`. -/
def slideHasBranch (slide : PyDict) : Bool :=
  match dictGet slide "choices" with
  | .vList cs => decide (2 ≤ cs.length)
  | _ => false

/-- The body run on the first slide with at least two choices: normalize the
first two choices and force exactly one of them to be correct. -/
def coerceFixSlide (slide : PyDict) : PyDict :=
  match dictGet slide "choices" with
  | .vList cs =>
    match cs with
    | c0 :: c1 :: _ =>
      let f0 := fixChoice 0 c0
      let f1 := fixChoice 1 c1
      let pair :=
        if pyValBEq (dictGet f0 "correct") (dictGet f1 "correct") then
          (dictSet f0 "correct" (.vBool true), dictSet f1 "correct" (.vBool false))
        else (f0, f1)
      dictSet slide "choices" (.vList [.vDict pair.1, .vDict pair.2])
    | _ => slide
  | _ => slide

/-- The default branching slide inserted when no slide has two choices. -/
def defaultBranchSlide : PyDict :=
  [("position", .vInt 2),
   ("text", .vStr "A risky moment appears. What is the safest choice?"),
   ("choices", .vList
     [.vDict [("id", .vStr "a"), ("text", .vStr "Move away and tell a trusted adult."),
              ("correct", .vBool true)],
      .vDict [("id", .vStr "b"), ("text", .vStr "Go alone and keep it secret."),
              ("correct", .vBool false)]])]

/-- `list.insert(n, x)` (clamping to the end, as Python does). -/
def insertAt (n : Nat) (x : α) : List α → List α
  | [] => [x]
  | a :: t =>
    match n with
    | 0 => x :: a :: t
    | Nat.succ m => a :: insertAt m x t

/-- The searching loop of `_coerce_two_choice_branch`: `some` of the updated
list if a slide with at least two choices was found and fixed, else `none`. -/
def coerceFind : List PyDict → Option (List PyDict)
  | [] => Option.none
  | s :: rest =>
    if slideHasBranch s then Option.some (coerceFixSlide s :: rest)
    else (coerceFind rest).map (s :: ·)

/-- `_coerce_two_choice_branch` (written functionally: the source mutates the
list in place). -/
def coerce_two_choice_branch (slides : List PyDict) : List PyDict :=
  match coerceFind slides with
  | Option.some r => r
  | Option.none => insertAt (min 1 slides.length) defaultBranchSlide slides

/-- Fixed text substituted for a blank slide in lenient mode. -/
def calmText : String := "The child stays calm and chooses a safe action."

/-- Fixed safe-reframing sentence used when the scary-term count is too high. -/
def reframeText : String :=
  "A confusing moment happens, but the child remembers safe rules and seeks help."

/-- The per-choice body of the cleaning loop in `apply_safety_critic` (the
`for choice_idx, choice in enumerate(raw_choices[:2])` loop). -/
def cleanChoice (choiceIdx : Nat) (choice : PyDict) : PyDict × List String :=
  let r := sanitize_text (pyStr (dictGetD choice "text" (.vStr "")))
  let idv := dictGet choice "id"
  ([("id", .vStr (pyStr (if pyTruthy idv then idv
                         else .vStr (if choiceIdx = 0 then "a" else "b")))),
    ("text", .vStr (if r.1.data.isEmpty then defaultChoiceText else r.1)),
    ("correct", .vBool (pyTruthy (dictGetD choice "correct" (.vBool (choiceIdx = 0)))))],
   r.2)

/-- The cleaning loop over `raw_choices[:2]`, threading the raw index (which
also numbers skipped non-dict entries, as `enumerate` does). -/
def cleanChoices (slideIdx : Nat) : Nat → List PyVal → List PyDict × List String
  | _, [] => ([], [])
  | i, c :: rest =>
    let tail := cleanChoices slideIdx (i + 1) rest
    match c with
    | .vDict d =>
      let r := cleanChoice i d
      (r.1 :: tail.1,
       r.2.map (fun item =>
         "slide_" ++ toString (slideIdx + 1) ++ "_choice_" ++ toString (i + 1) ++ ": " ++ item)
         ++ tail.2)
    | _ => tail

/-- The text-handling prefix of `apply_safety_critic`'s per-slide loop (empty
check, substitution pass, scary-term density check, length cap): the final
slide text together with the issues recorded so far, or the strict-mode
error. -/
def processText (st : Settings) (index : Nat) (slide : PyDict) :
    Except String (String × List String) :=
  let stripped := pyStrip (pyStr (dictGetD slide "text" (.vStr "")))
  if stripped.data.isEmpty && st.safety_critic_strict then
    .error ("Slide " ++ toString (index + 1) ++ " has empty text")
  else
    let ti : String × List String :=
      if stripped.data.isEmpty then
        (calmText, ["slide_" ++ toString (index + 1) ++ ": filled missing text"])
      else (stripped, [])
    let sr := sanitize_text ti.1
    let issues1 := ti.2 ++ sr.2.map (fun item => "slide_" ++ toString (index + 1) ++ ": " ++ item)
    let si : String × List String :=
      if st.safety_critic_max_scary_terms_per_slide < count_scary_terms sr.1 then
        (reframeText, issues1 ++ ["slide_" ++ toString (index + 1) ++ ": tone too intense, softened"])
      else (sr.1, issues1)
    if st.safety_critic_max_text_length < strLen si.1 then
      .ok (pyRStrip (strTake si.1 st.safety_critic_max_text_length) ++ "...",
           si.2 ++ ["slide_" ++ toString (index + 1) ++ ": trimmed long text"])
    else .ok si

/-- The choice-handling suffix of the per-slide loop: the value stored under
`choices` (a cleaned list, `None`, or the untouched non-list original) and the
choice issues. -/
def processChoices (index : Nat) (slide : PyDict) : PyVal × List String :=
  match dictGetD slide "choices" .vNone with
  | .vList cs =>
    let cl := cleanChoices index 0 (cs.take 2)
    (if cl.1.isEmpty then .vNone else .vList (cl.1.map .vDict), cl.2)
  | v => (v, [])

/-- The per-slide body of `apply_safety_critic`'s main loop: returns the
normalized slide and the issues it contributed, or the strict-mode error. -/
def processSlide (st : Settings) (index : Nat) (slide : PyDict) :
    Except String (PyDict × List String) :=
  match processText st index slide with
  | .error e => .error e
  | .ok ti =>
    let cv := processChoices index slide
    .ok ([("position", .vInt (index + 1)), ("text", .vStr ti.1), ("choices", cv.1)],
         ti.2 ++ cv.2)

/-- The main `for index, slide in enumerate(slides)` loop. -/
def processSlides (st : Settings) : Nat → List PyDict → Except String (List PyDict × List String)
  | _, [] => .ok ([], [])
  | index, s :: rest => do
    let r ← processSlide st index s
    let rr ← processSlides st (index + 1) rest
    .ok (r.1 :: rr.1, r.2 ++ rr.2)

/-- The `slide["position"] = idx + 1` re-sequencing loop. -/
def reposition : Nat → List PyDict → List PyDict
  | _, [] => []
  | i, s :: rest => dictSet s "position" (.vInt (i + 1)) :: reposition (i + 1) rest

/-- Apply `f` to the last element of a list. -/
def updateLast (f : PyDict → PyDict) : List PyDict → List PyDict
  | [] => []
  | [s] => [f s]
  | s :: s' :: rest => s :: updateLast f (s' :: rest)

/-- The fixed sentence appended (with a leading space, via the f-string) to the
final slide when no trusted-adult reference is present. -/
def trustedAdultSuffix : String :=
  " Then the child tells a trusted adult like a parent or teacher."

/-- The trusted-adult guarantee step of `apply_safety_critic` (lines 245-247):
the source indexes `slide['text']` directly, which assumes the key is present —
every slide reaching this point was built with a `text` key. -/
def ensureTrustedAdult (slides : List PyDict) (issues : List String) :
    List PyDict × List String :=
  if has_trusted_adult_reference slides then (slides, issues)
  else
    (updateLast
       (fun s => dictSet s "text" (.vStr (pyStr (dictGet s "text") ++ trustedAdultSuffix)))
       slides,
     issues ++ ["added trusted adult guidance"])

/-- The possible outcomes of the single HTTP round-trip in
`_run_optional_llm_review`: either `urlopen`/`read` raises (`URLError`,
including `HTTPError`, or `TimeoutError`), or a response body string arrives. -/
inductive NetOutcome where
  | fail : NetOutcome
  | ok (raw : String) : NetOutcome

/-- The fixed verdict synthesized on transport/timeout/JSON-parse failure. -/
def unavailableVerdict : PyVal :=
  .vDict [("approved", .vBool false),
          ("risk_flags", .vList [.vStr "llm_review_unavailable"]),
          ("notes", .vStr "LLM review unavailable")]

/-- The fixed verdict returned for a parseable non-object review payload. -/
def invalidVerdict : PyVal :=
  .vDict [("approved", .vBool false),
          ("risk_flags", .vList [.vStr "llm_review_invalid"]),
          ("notes", .vStr "Invalid LLM review payload")]

/-- `_run_optional_llm_review`, parameterized by the network outcome and by a
parser `loads` modelling `json.loads` (`none` models `json.JSONDecodeError`).
`.error` models an exception escaping the function: the `except` clause only
catches `URLError`, `JSONDecodeError` and `TimeoutError`, so `body.get` on a
non-dict body raises an uncaught `AttributeError`, and `json.loads` on a
non-string `response` field raises an uncaught `TypeError`. -/
def run_optional_llm_review (st : Settings) (loads : String → Option PyVal)
    (net : NetOutcome) : Except String (Option PyVal) :=
  if !st.safety_critic_enable_llm_review then .ok Option.none
  else
    match net with
    | .fail => .ok (Option.some unavailableVerdict)
    | .ok raw =>
      match loads raw with
      | Option.none => .ok (Option.some unavailableVerdict)
      | Option.some body =>
        match body with
        | .vDict fields =>
          match dictGetD fields "response" (.vStr "\x7b\x7d") with
          | .vStr responseText =>
            match loads responseText with
            | Option.none => .ok (Option.some unavailableVerdict)
            | Option.some parsed =>
              match parsed with
              | .vDict _ => .ok (Option.some parsed)
              | _ => .ok (Option.some invalidVerdict)
          | _ => .error "TypeError: the JSON object must be str, bytes or bytearray"
        | _ => .error "AttributeError: object has no attribute 'get'"

/-- `SafetyCriticResult`. -/
structure SafetyCriticResult where
  slides : List PyDict
  issues : List String
  llm_review : Option PyVal

/-- `apply_safety_critic`, with the network/JSON world of the optional review
passed in explicitly.  `.error` models a raised `SafetyCriticError` (or an
exception escaping the review call). -/
def apply_safety_critic (st : Settings) (loads : String → Option PyVal)
    (net : NetOutcome) (slides : List PyDict) : Except String SafetyCriticResult :=
  if !st.safety_critic_enabled then .ok ⟨slides, [], Option.none⟩
  else if slides.isEmpty then .error "No slides available for safety validation"
  else do
    let pr ← processSlides st 0 slides
    let fixed1 := coerce_two_choice_branch pr.1
    let fixed2 := reposition 0 fixed1
    let er := ensureTrustedAdult fixed2 pr.2
    let review ← run_optional_llm_review st loads net
    .ok ⟨er.1, er.2, review⟩

/-- Slides of a critic result (`[]` if the call raised). -/
def scSlides (r : Except String SafetyCriticResult) : List PyDict :=
  match r with
  | .ok res => res.slides
  | .error _ => []

/-- Issues of a critic result (`[]` if the call raised). -/
def scIssues (r : Except String SafetyCriticResult) : List String :=
  match r with
  | .ok res => res.issues
  | .error _ => []

/-- Whether an `Except` result is a success. -/
def isOkB : Except String α → Bool
  | .ok _ => true
  | .error _ => false

/-! ### Slide normalizer (`src/backend/app/story_generation.py`) -/

/-- The fields of `schemas.StoryCreateRequest` the normalizer reads. -/
structure StoryCreateRequest where
  title : String
  topic : String
  ageGroup : String
  language : String
  characterCount : Int
  regionContext : Option String
  description : String
  moralLesson : Option String

/-- Python `x or default` for an optional string field (both `None` and the
empty string are falsy). -/
def pyOrStr (v : Option String) (default : String) : String :=
  match v with
  | Option.some s => if s.data.isEmpty then default else s
  | Option.none => default

/-- `chr(ord("a") + idx)` as a one-character string. -/
def chrId (idx : Nat) : String := String.mk [Char.ofNat (97 + idx)]

/-- The `for idx, choice in enumerate(raw_choices)` loop of
`_normalize_choices`: keep only dict entries with a non-empty (after strip)
string `text` and a boolean `correct`, defaulting a missing/blank id to the
letter for the entry's raw index. -/
def normChoicesAux : Nat → List PyVal → List PyDict
  | _, [] => []
  | idx, c :: rest =>
    let tail := normChoicesAux (idx + 1) rest
    match c with
    | .vDict d =>
      match dictGet d "text", dictGet d "correct" with
      | .vStr t, .vBool b =>
        if (pyStrip t).data.isEmpty then tail
        else
          let cid :=
            match dictGet d "id" with
            | .vStr rid => if (pyStrip rid).data.isEmpty then chrId idx else pyStrip rid
            | _ => chrId idx
          [("id", .vStr cid), ("text", .vStr (pyStrip t)), ("correct", .vBool b)] :: tail
      | _, _ => tail
    | _ => tail

/-- `_normalize_choices`. -/
def normalize_choices (raw : PyVal) : Option (List PyDict) :=
  match raw with
  | .vList cs =>
    let normalized := normChoicesAux 0 cs
    if normalized.isEmpty then Option.none else Option.some normalized
  | _ => Option.none

/-- `choices[0]["correct"] = True`. -/
def forceFirstCorrect : List PyDict → List PyDict
  | [] => []
  | c :: rest => dictSet c "correct" (.vBool true) :: rest

/-- The per-entry choice handling in `_validate_and_normalize_slides`:
normalize, then force the first choice correct when none is. -/
def slideChoices (raw : PyVal) : Option (List PyDict) :=
  match normalize_choices raw with
  | Option.some cs =>
    if cs.any (fun c => pyTruthy (dictGet c "correct")) then Option.some cs
    else Option.some (forceFirstCorrect cs)
  | Option.none => Option.none

/-- The `for idx, raw_slide in enumerate(raw_slides[:8])` loop: drop non-dict
entries and entries whose `text` is not a non-blank string; note the kept
slides carry `position = idx + 1` for their *raw* index `idx`. -/
def validSlidesAux : Nat → List PyVal → List PyDict
  | _, [] => []
  | idx, rs :: rest =>
    let tail := validSlidesAux (idx + 1) rest
    match rs with
    | .vDict d =>
      match dictGet d "text" with
      | .vStr t =>
        if (pyStrip t).data.isEmpty then tail
        else
          let cv : PyVal :=
            match slideChoices (dictGet d "choices") with
            | Option.some cs => .vList (cs.map .vDict)
            | Option.none => .vNone
          [("position", .vInt (idx + 1)), ("text", .vStr (pyStrip t)), ("choices", cv)] :: tail
      | _ => tail
    | _ => tail

/-- The default branching slide synthesized by the normalizer when no slide
has a truthy choice list. -/
def genDefaultBranchSlide (payload : StoryCreateRequest) : PyDict :=
  let guidance := pyOrStr payload.moralLesson "Say no and tell a trusted adult."
  [("position", .vInt 2),
   ("text", .vStr ("A risky moment appears about " ++ lowerStr payload.topic
     ++ ". What is the safest choice?")),
   ("choices", .vList
     [.vDict [("id", .vStr "a"), ("text", .vStr guidance), ("correct", .vBool true)],
      .vDict [("id", .vStr "b"), ("text", .vStr "Ignore warning signs and go alone."),
              ("correct", .vBool false)]])]

/-- `_validate_and_normalize_slides`; `.error` models a raised
`StoryGenerationError` with the given message. -/
def validate_and_normalize_slides (rawPayload : PyDict) (payload : StoryCreateRequest) :
    Except String (List PyDict) :=
  match dictGet rawPayload "slides" with
  | .vList rawSlides =>
    if rawSlides.isEmpty then .error "Model did not return valid slides list"
    else
      let slides := validSlidesAux 0 (rawSlides.take 8)
      if slides.length < 3 then .error "Model returned too few valid slides"
      else if slides.any (fun s => pyTruthy (dictGet s "choices")) then .ok slides
      else
        .ok (reposition 0
          ((insertAt (min 1 slides.length) (genDefaultBranchSlide payload) slides).take 8))
  | _ => .error "Model did not return valid slides list"

/-- Slides of a normalizer result (`[]` if it raised). -/
def genSlides (r : Except String (List PyDict)) : List PyDict :=
  match r with
  | .ok slides => slides
  | .error _ => []

/-! ### Spec-side definitions -/

/-- A regex word character (`\w` over ASCII). -/
def isWordChar (c : Char) : Bool := c.isAlphanum || c = '_'

/-- Helper for `containsWholeWordCI`: scan for an occurrence of the (lowered)
term whose neighbours on both sides are absent or non-word characters. -/
def wholeWordScan (term : List Char) (prev : Option Char) : List Char → Bool
  | [] => false
  | c :: rest =>
    (((match prev with
       | Option.some p => !isWordChar p
       | Option.none => true) &&
      term.isPrefixOf ((c :: rest).map Char.toLower)) &&
     (match (c :: rest).drop term.length with
      | [] => true
      | c' :: _ => !isWordChar c')) ||
    wholeWordScan term (Option.some c) rest

/-- Modelled from the spec: whole-word, case-insensitive containment of a term
(`\b term \b` with real word-boundary semantics), which is what the spec's
"as a whole word, case-insensitively" means.  This is deliberately the *spec's*
reading, to be compared against the code's `wordPattern` behaviour. -/
def containsWholeWordCI (term text : String) : Bool :=
  wholeWordScan (lowerStr term).data Option.none text.data

/-! ### Derived predicates used by the claims -/

/-- Positions are `i+1, i+2, ...` down the list (so `positionsFromB 0 l` says
the positions are sequential `1..N` with no gaps). -/
def positionsFromB : Nat → List PyDict → Bool
  | _, [] => true
  | i, s :: rest => pyValBEq (dictGet s "position") (.vInt (i + 1)) && positionsFromB (i + 1) rest

/-- The position values of a slide list, in order. -/
def positionsOf (l : List PyDict) : List PyVal :=
  l.map (fun s => dictGet s "position")

/-- A choice entry whose `correct` field is `True`. -/
def choiceCorrectTrue (c : PyVal) : Bool :=
  match c with
  | .vDict d => pyValBEq (dictGet d "correct") (.vBool true)
  | _ => false

/-- A slide with a two-entry choice list of which exactly one entry has
`correct = True` (the shape the spec's branch invariant talks about). -/
def slideTwoOneCorrect (s : PyDict) : Bool :=
  match dictGet s "choices" with
  | .vList [c1, c2] => choiceCorrectTrue c1 != choiceCorrectTrue c2
  | _ => false

/-- How many slides of a list are well-formed two-choice branches. -/
def countTwoChoiceOneCorrect (l : List PyDict) : Nat :=
  l.countP slideTwoOneCorrect

/-- Whether a `PyVal` is a dict. -/
def isVDictB : PyVal → Bool
  | .vDict _ => true
  | _ => false

/-- Whether a `PyVal` is a string. -/
def isVStrB : PyVal → Bool
  | .vStr _ => true
  | _ => false

/-- An input slide that still has at least two choice entries after the
critic's cleaning pass (which keeps the dict entries among the first two raw
entries): this is exactly the condition under which `_coerce_two_choice_branch`
finds a branch instead of inserting the default slide. -/
def inputCleanBranch (slide : PyDict) : Bool :=
  match dictGetD slide "choices" .vNone with
  | .vList cs => decide (2 ≤ (cs.take 2).countP isVDictB)
  | _ => false

/-- Text of the last slide (used to state the trusted-adult append). -/
def lastText (l : List PyDict) : String :=
  pyStr (dictGet (l.getLast?.getD []) "text")

/-! ### Basic lemmas: `pyValBEq` and dict operations -/

theorem pyValBEq_vInt {v : PyVal} {n : Int} (h : pyValBEq v (.vInt n) = true) : v = .vInt n := by
  cases v <;> simp [pyValBEq] at h ⊢
  exact h

theorem pyValBEq_vBool_vBool (a b : Bool) : pyValBEq (.vBool a) (.vBool b) = (a == b) := by
  simp [pyValBEq]

theorem dictGet?_dictSet_self (d : PyDict) (k : String) (v : PyVal) :
    dictGet? (dictSet d k v) k = Option.some v := by
  induction d with
  | nil => simp [dictSet, dictGet?]
  | cons p rest ih =>
    obtain ⟨k', v'⟩ := p
    by_cases h : k' = k <;> simp [dictSet, dictGet?, h, ih]

theorem dictGet_dictSet_self (d : PyDict) (k : String) (v : PyVal) :
    dictGet (dictSet d k v) k = v := by
  simp [dictGet, dictGetD, dictGet?_dictSet_self]

theorem dictGet?_dictSet_ne (d : PyDict) {k k' : String} (v : PyVal) (h : k' ≠ k) :
    dictGet? (dictSet d k v) k' = dictGet? d k' := by
  induction d with
  | nil => simp [dictSet, dictGet?, Ne.symm h]
  | cons p rest ih =>
    obtain ⟨k₀, v₀⟩ := p
    by_cases h0 : k₀ = k
    · subst h0
      simp [dictSet, dictGet?, h, Ne.symm h]
    · simp [dictSet, dictGet?, h0, ih]

theorem dictGet_dictSet_ne (d : PyDict) {k k' : String} (v : PyVal) (h : k' ≠ k) :
    dictGet (dictSet d k v) k' = dictGet d k' := by
  simp [dictGet, dictGetD, dictGet?_dictSet_ne d v h]

theorem dictGetD_dictSet_ne (d : PyDict) {k k' : String} (v dv : PyVal) (h : k' ≠ k) :
    dictGetD (dictSet d k v) k' dv = dictGetD d k' dv := by
  simp [dictGetD, dictGet?_dictSet_ne d v h]

theorem dictSet_eq_self {d : PyDict} {k : String} {v : PyVal}
    (h : dictGet? d k = Option.some v) : dictSet d k v = d := by
  induction d with
  | nil => simp [dictGet?] at h
  | cons p rest ih =>
    obtain ⟨k₀, v₀⟩ := p
    by_cases h0 : k₀ = k
    · subst h0
      simp [dictGet?] at h
      simp [dictSet, h]
    · simp [dictGet?, h0] at h
      simp [dictSet, h0, ih h]

theorem dictGet?_of_dictGet {d : PyDict} {k : String} {v : PyVal}
    (h : dictGet d k = v) (hv : v ≠ .vNone) : dictGet? d k = Option.some v := by
  unfold dictGet dictGetD at h
  cases hd : dictGet? d k with
  | none => rw [hd] at h; simp at h; exact absurd h.symm hv
  | some w => rw [hd] at h; simp at h; rw [h]

/-! ### Basic lemmas: list helpers -/

theorem insertAt_length (n : Nat) (x : α) (l : List α) :
    (insertAt n x l).length = l.length + 1 := by
  induction l generalizing n with
  | nil => simp [insertAt]
  | cons a t ih =>
    cases n with
    | zero => simp [insertAt]
    | succ m => simp [insertAt, ih]

theorem any_insertAt (p : α → Bool) (n : Nat) (x : α) (l : List α) :
    (insertAt n x l).any p = (p x || l.any p) := by
  induction l generalizing n with
  | nil => simp [insertAt]
  | cons a t ih =>
    cases n with
    | zero => simp [insertAt]
    | succ m => simp [insertAt, ih, Bool.or_left_comm]

theorem all_insertAt (p : α → Bool) (n : Nat) (x : α) (l : List α) :
    (insertAt n x l).all p = (p x && l.all p) := by
  induction l generalizing n with
  | nil => simp [insertAt]
  | cons a t ih =>
    cases n with
    | zero => simp [insertAt]
    | succ m => simp [insertAt, ih, Bool.and_left_comm]

theorem all_take (p : α → Bool) (n : Nat) {l : List α} (h : l.all p = true) :
    (l.take n).all p = true := by
  induction l generalizing n with
  | nil => simp
  | cons a t ih =>
    cases n with
    | zero => simp
    | succ m =>
      simp only [List.all_cons, Bool.and_eq_true] at h
      simp only [List.take, List.all_cons, Bool.and_eq_true]
      exact ⟨h.1, ih m h.2⟩

theorem updateLast_length (f : PyDict → PyDict) (l : List PyDict) :
    (updateLast f l).length = l.length := by
  induction l with
  | nil => rfl
  | cons s rest ih =>
    cases rest with
    | nil => rfl
    | cons s' r => simpa [updateLast] using ih

theorem updateLast_dropLast (f : PyDict → PyDict) (l : List PyDict) :
    (updateLast f l).dropLast = l.dropLast := by
  induction l with
  | nil => rfl
  | cons s rest ih =>
    cases rest with
    | nil => rfl
    | cons s' r =>
      have hlen : updateLast f (s' :: r) ≠ [] := by
        cases r <;> simp [updateLast]
      simp only [updateLast]
      rw [List.dropLast_cons_of_ne_nil hlen, List.dropLast_cons_of_ne_nil (by simp)]
      simpa using ih

theorem updateLast_getLast? (f : PyDict → PyDict) (l : List PyDict) :
    (updateLast f l).getLast? = l.getLast?.map f := by
  induction l with
  | nil => rfl
  | cons s rest ih =>
    cases rest with
    | nil => rfl
    | cons s' r =>
      have h1 : ∃ x xs, updateLast f (s' :: r) = x :: xs := by
        cases r <;> exact ⟨_, _, rfl⟩
      obtain ⟨x, xs, hx⟩ := h1
      simp only [updateLast]
      rw [hx, List.getLast?_cons_cons, ← hx, ih, List.getLast?_cons_cons]

theorem any_updateLast_pres (f : PyDict → PyDict) (p : PyDict → Bool)
    (hf : ∀ s, p (f s) = p s) (l : List PyDict) :
    (updateLast f l).any p = l.any p := by
  induction l with
  | nil => rfl
  | cons s rest ih =>
    cases rest with
    | nil => simp [updateLast, hf]
    | cons s' r => simpa [updateLast] using congrArg (p s || ·) ih

theorem any_updateLast_true (f : PyDict → PyDict) (p : PyDict → Bool)
    (hf : ∀ s, p (f s) = true) {l : List PyDict} (hl : l ≠ []) :
    (updateLast f l).any p = true := by
  induction l with
  | nil => exact absurd rfl hl
  | cons s rest ih =>
    cases rest with
    | nil => simp [updateLast, hf]
    | cons s' r => simp [updateLast, ih (by simp)]

theorem listContainsSub_append_left (a : List Char) {b t : List Char}
    (h : listContainsSub b t = true) : listContainsSub (a ++ b) t = true := by
  induction a with
  | nil => simpa using h
  | cons c cs ih =>
    simp only [List.cons_append, listContainsSub, Bool.or_eq_true]
    exact Or.inr ih

/-! ### Stage lemmas: per-slide processing -/

theorem dictGet_slideTriple (p t c : PyVal) (k : String) :
    dictGet [("position", p), ("text", t), ("choices", c)] k =
      (if "position" = k then p else if "text" = k then t
       else if "choices" = k then c else .vNone) := by
  by_cases h1 : "position" = k
  · simp [dictGet, dictGetD, dictGet?, h1]
  · by_cases h2 : "text" = k
    · simp [dictGet, dictGetD, dictGet?, h1, h2]
    · by_cases h3 : "choices" = k
      · simp [dictGet, dictGetD, dictGet?, h1, h2, h3]
      · simp [dictGet, dictGetD, dictGet?, h1, h2, h3]

theorem processSlide_ok_inv {st : Settings} {index : Nat} {slide : PyDict}
    {out : PyDict × List String} (h : processSlide st index slide = .ok out) :
    ∃ ti, processText st index slide = .ok ti ∧
      out = ([("position", .vInt (index + 1)), ("text", .vStr ti.1),
              ("choices", (processChoices index slide).1)],
             ti.2 ++ (processChoices index slide).2) := by
  unfold processSlide at h
  cases hp : processText st index slide with
  | error e => rw [hp] at h; exact absurd h (by simp)
  | ok ti =>
    rw [hp] at h
    simp only [Except.ok.injEq] at h
    exact ⟨ti, rfl, h.symm⟩

theorem cleanChoices_len (slideIdx : Nat) (i : Nat) (cs : List PyVal) :
    (cleanChoices slideIdx i cs).1.length = cs.countP isVDictB := by
  induction cs generalizing i with
  | nil => simp [cleanChoices]
  | cons c rest ih =>
    cases c <;> simp [cleanChoices, isVDictB, List.countP_cons, ih]

theorem processSlide_branch {st : Settings} {index : Nat} {slide : PyDict}
    {out : PyDict × List String} (h : processSlide st index slide = .ok out) :
    slideHasBranch out.1 = inputCleanBranch slide := by
  obtain ⟨ti, -, hout⟩ := processSlide_ok_inv h
  have h1 : slideHasBranch out.1 =
      (match (processChoices index slide).1 with
       | .vList cs => decide (2 ≤ cs.length)
       | _ => false) := by
    rw [hout]
    rfl
  rw [h1]
  unfold processChoices inputCleanBranch
  cases hdc : dictGetD slide "choices" .vNone with
  | vList cs =>
    simp only
    have hlen := cleanChoices_len index 0 (cs.take 2)
    by_cases he : (cleanChoices index 0 (cs.take 2)).1.isEmpty
    · have h0 : (cs.take 2).countP isVDictB = 0 := by
        rw [← hlen]; simpa [List.isEmpty_iff_length_eq_zero] using he
      simp [he, h0]
    · simp only [he, if_false, Bool.false_eq_true]
      simp [List.length_map, hlen]
  | vNone => simp
  | vBool b => simp
  | vInt n => simp
  | vStr s => simp
  | vDict d => simp

theorem processSlides_ok_cons {st : Settings} {i : Nat} {s : PyDict} {rest : List PyDict}
    {out : List PyDict × List String} (h : processSlides st i (s :: rest) = .ok out) :
    ∃ r rr, processSlide st i s = .ok r ∧ processSlides st (i + 1) rest = .ok rr ∧
      out = (r.1 :: rr.1, r.2 ++ rr.2) := by
  unfold processSlides at h
  cases hr : processSlide st i s with
  | error e => rw [hr] at h; exact absurd h (by simp [Bind.bind, Except.bind])
  | ok r =>
    rw [hr] at h
    cases hrr : processSlides st (i + 1) rest with
    | error e => rw [hrr] at h; exact absurd h (by simp [Bind.bind, Except.bind])
    | ok rr =>
      rw [hrr] at h
      simp only [Bind.bind, Except.bind, Except.ok.injEq] at h
      exact ⟨r, rr, rfl, rfl, h.symm⟩

theorem processSlides_length {st : Settings} {i : Nat} {l : List PyDict}
    {out : List PyDict × List String} (h : processSlides st i l = .ok out) :
    out.1.length = l.length := by
  induction l generalizing i out with
  | nil =>
    unfold processSlides at h
    simp only [Except.ok.injEq] at h
    rw [← h]
  | cons s rest ih =>
    obtain ⟨r, rr, -, hrr, hout⟩ := processSlides_ok_cons h
    rw [hout]
    simpa using ih hrr

theorem processSlides_any_branch {st : Settings} {i : Nat} {l : List PyDict}
    {out : List PyDict × List String} (h : processSlides st i l = .ok out) :
    out.1.any slideHasBranch = l.any inputCleanBranch := by
  induction l generalizing i out with
  | nil =>
    unfold processSlides at h
    simp only [Except.ok.injEq] at h
    rw [← h]
    rfl
  | cons s rest ih =>
    obtain ⟨r, rr, hr, hrr, hout⟩ := processSlides_ok_cons h
    rw [hout]
    simp only [List.any_cons]
    rw [processSlide_branch hr, ih hrr]

/-! ### Stage lemmas: branch coercion -/

theorem fixChoice_correct (i : Nat) (c : PyVal) :
    ∃ b, dictGet (fixChoice i c) "correct" = .vBool b := by
  cases c with
  | vDict d =>
    refine ⟨pyTruthy (dictGetD d "correct" (.vBool (decide (i = 0)))), ?_⟩
    simp [fixChoice, dictGet_dictSet_self]
  | vNone => exact ⟨_, rfl⟩
  | vBool b => exact ⟨_, rfl⟩
  | vInt n => exact ⟨_, rfl⟩
  | vStr s => exact ⟨_, rfl⟩
  | vList xs => exact ⟨_, rfl⟩

theorem coerceFixSlide_twoOne {s : PyDict} (h : slideHasBranch s = true) :
    slideTwoOneCorrect (coerceFixSlide s) = true := by
  unfold slideHasBranch at h
  unfold coerceFixSlide
  cases hc : dictGet s "choices" with
  | vList cs =>
    rw [hc] at h
    match cs, h with
    | c0 :: c1 :: rest, _ =>
      obtain ⟨b0, hb0⟩ := fixChoice_correct 0 c0
      obtain ⟨b1, hb1⟩ := fixChoice_correct 1 c1
      simp only [hb0, hb1, pyValBEq_vBool_vBool]
      by_cases hbb : b0 == b1
      · simp only [hbb, if_true]
        simp [slideTwoOneCorrect, dictGet_dictSet_self, choiceCorrectTrue,
          pyValBEq_vBool_vBool]
      · simp only [hbb, Bool.false_eq_true, if_false]
        simp only [slideTwoOneCorrect, dictGet_dictSet_self, choiceCorrectTrue, hb0, hb1,
          pyValBEq_vBool_vBool]
        simpa [bne, Bool.beq_eq_decide_eq] using by
          simp only [beq_iff_eq] at hbb
          exact fun hq => hbb (by simp [hq])
  | vNone => rw [hc] at h; exact absurd h (by simp)
  | vBool b => rw [hc] at h; exact absurd h (by simp)
  | vInt n => rw [hc] at h; exact absurd h (by simp)
  | vStr s' => rw [hc] at h; exact absurd h (by simp)
  | vDict d => rw [hc] at h; exact absurd h (by simp)

theorem coerceFind_none_iff (l : List PyDict) :
    coerceFind l = Option.none ↔ l.any slideHasBranch = false := by
  induction l with
  | nil => simp [coerceFind]
  | cons s rest ih =>
    by_cases hb : slideHasBranch s <;>
      simp [coerceFind, hb, ih, Option.map_eq_none']

theorem coerceFind_some_length {l r : List PyDict} (h : coerceFind l = Option.some r) :
    r.length = l.length := by
  induction l generalizing r with
  | nil => simp [coerceFind] at h
  | cons s rest ih =>
    by_cases hb : slideHasBranch s
    · simp only [coerceFind, hb, if_true, Option.some.injEq] at h
      rw [← h]
      simp
    · simp only [coerceFind, hb, Bool.false_eq_true, if_false] at h
      cases hf : coerceFind rest with
      | none => rw [hf] at h; exact absurd h (by simp)
      | some r' =>
        rw [hf] at h
        simp only [Option.map_some', Option.some.injEq] at h
        rw [← h]
        simpa using ih hf

theorem coerceFind_some_anyTwoOne {l r : List PyDict} (h : coerceFind l = Option.some r) :
    r.any slideTwoOneCorrect = true := by
  induction l generalizing r with
  | nil => simp [coerceFind] at h
  | cons s rest ih =>
    by_cases hb : slideHasBranch s
    · simp only [coerceFind, hb, if_true, Option.some.injEq] at h
      rw [← h]
      simp [coerceFixSlide_twoOne hb]
    · simp only [coerceFind, hb, Bool.false_eq_true, if_false] at h
      cases hf : coerceFind rest with
      | none => rw [hf] at h; exact absurd h (by simp)
      | some r' =>
        rw [hf] at h
        simp only [Option.map_some', Option.some.injEq] at h
        rw [← h]
        simp [ih hf]

theorem defaultBranchSlide_twoOne : slideTwoOneCorrect defaultBranchSlide = true := by decide

theorem coerce_length (l : List PyDict) :
    (coerce_two_choice_branch l).length =
      (if l.any slideHasBranch then l.length else l.length + 1) := by
  unfold coerce_two_choice_branch
  cases hf : coerceFind l with
  | none =>
    rw [(coerceFind_none_iff l).mp hf]
    simp [insertAt_length]
  | some r =>
    have hb : l.any slideHasBranch = true := by
      by_contra hfalse
      rw [(coerceFind_none_iff l).mpr (by simpa using hfalse)] at hf
      exact absurd hf (by simp)
    rw [hb]
    simpa using coerceFind_some_length hf

theorem coerce_anyTwoOne (l : List PyDict) :
    (coerce_two_choice_branch l).any slideTwoOneCorrect = true := by
  unfold coerce_two_choice_branch
  cases hf : coerceFind l with
  | none => simp [any_insertAt, defaultBranchSlide_twoOne]
  | some r => exact coerceFind_some_anyTwoOne hf

theorem coerce_ne_nil (l : List PyDict) : coerce_two_choice_branch l ≠ [] := by
  intro hc
  have h := coerce_length l
  rw [hc] at h
  simp only [List.length_nil] at h
  by_cases hb : l.any slideHasBranch
  · rw [if_pos hb] at h
    cases l with
    | nil => simp at hb
    | cons a t => simp at h
  · rw [if_neg hb] at h
    simp at h

/-! ### Stage lemmas: re-sequencing and the trusted-adult step -/

theorem reposition_length (i : Nat) (l : List PyDict) :
    (reposition i l).length = l.length := by
  induction l generalizing i with
  | nil => rfl
  | cons s rest ih => simp [reposition, ih]

theorem positionsFromB_reposition (i : Nat) (l : List PyDict) :
    positionsFromB i (reposition i l) = true := by
  induction l generalizing i with
  | nil => rfl
  | cons s rest ih =>
    simp [reposition, positionsFromB, dictGet_dictSet_self, pyValBEq, ih]

theorem reposition_any (p : PyDict → Bool)
    (hp : ∀ s v, p (dictSet s "position" v) = p s) (i : Nat) (l : List PyDict) :
    (reposition i l).any p = l.any p := by
  induction l generalizing i with
  | nil => rfl
  | cons s rest ih => simp [reposition, hp, ih]

theorem reposition_all (p : PyDict → Bool)
    (hp : ∀ s v, p (dictSet s "position" v) = p s) (i : Nat) (l : List PyDict) :
    (reposition i l).all p = l.all p := by
  induction l generalizing i with
  | nil => rfl
  | cons s rest ih => simp [reposition, hp, ih]

theorem ensure_length (slides : List PyDict) (issues : List String) :
    (ensureTrustedAdult slides issues).1.length = slides.length := by
  unfold ensureTrustedAdult
  split
  · rfl
  · simp [updateLast_length]

theorem strData_append (a b : String) : (a ++ b).data = a.data ++ b.data := rfl

theorem appendTrusted_ref (s : PyDict) :
    slideTrustedRef
      (dictSet s "text" (.vStr (pyStr (dictGet s "text") ++ trustedAdultSuffix))) = true := by
  unfold slideTrustedRef
  rw [Bool.or_eq_true]
  refine Or.inl ?_
  have hget : dictGetD (dictSet s "text" (.vStr (pyStr (dictGet s "text") ++ trustedAdultSuffix)))
      "text" (.vStr "") = .vStr (pyStr (dictGet s "text") ++ trustedAdultSuffix) := by
    simp [dictGetD, dictGet?_dictSet_self]
  rw [hget]
  have hcontains : listContainsSub
      (lowerStr (pyStr (dictGet s "text") ++ trustedAdultSuffix)).data
      "trusted adult".data = true := by
    show listContainsSub
      (((pyStr (dictGet s "text")).data ++ trustedAdultSuffix.data).map Char.toLower)
      "trusted adult".data = true
    rw [List.map_append]
    exact listContainsSub_append_left _ (by decide)
  have : TRUSTED_ADULT_TERMS.any
      (fun term => strContains (lowerStr (pyStr (dictGet s "text") ++ trustedAdultSuffix)) term)
      = true := by
    apply List.any_eq_true.mpr
    exact ⟨"trusted adult", by simp [TRUSTED_ADULT_TERMS], hcontains⟩
  exact this

theorem ensure_hasRef {slides : List PyDict} (issues : List String) (h : slides ≠ []) :
    has_trusted_adult_reference (ensureTrustedAdult slides issues).1 = true := by
  unfold ensureTrustedAdult
  by_cases hr : has_trusted_adult_reference slides
  · simp [hr]
  · rw [Bool.eq_false_iff.mpr hr]
    simp only [Bool.false_eq_true, if_false]
    exact any_updateLast_true _ _ (fun s => appendTrusted_ref s) h

theorem ensure_not_ref {slides : List PyDict} (issues : List String)
    (h : has_trusted_adult_reference slides = false) (hne : slides ≠ []) :
    (ensureTrustedAdult slides issues).2 = issues ++ ["added trusted adult guidance"] ∧
    (ensureTrustedAdult slides issues).1.dropLast = slides.dropLast ∧
    lastText (ensureTrustedAdult slides issues).1 = lastText slides ++ trustedAdultSuffix := by
  unfold ensureTrustedAdult
  rw [h]
  simp only [Bool.false_eq_true, if_false]
  refine ⟨by simp, updateLast_dropLast _ _, ?_⟩
  unfold lastText
  rw [updateLast_getLast?]
  cases hgl : slides.getLast? with
  | none => exact absurd (List.getLast?_eq_none_iff.mp hgl) hne
  | some last => simp [dictGet_dictSet_self, pyStr]

theorem ensure_any_pres (p : PyDict → Bool)
    (hp : ∀ s v, p (dictSet s "text" v) = p s) (slides : List PyDict) (issues : List String) :
    (ensureTrustedAdult slides issues).1.any p = slides.any p := by
  unfold ensureTrustedAdult
  split
  · rfl
  · exact any_updateLast_pres _ _ (fun s => hp s _) _

theorem positionsFromB_updateLast (f : PyDict → PyDict)
    (hf : ∀ s, dictGet (f s) "position" = dictGet s "position") (i : Nat) (l : List PyDict) :
    positionsFromB i (updateLast f l) = positionsFromB i l := by
  induction l generalizing i with
  | nil => rfl
  | cons s rest ih =>
    cases rest with
    | nil => simp [updateLast, positionsFromB, hf]
    | cons s' r =>
      simp only [updateLast, positionsFromB, ih]

theorem positionsFromB_ensure (slides : List PyDict) (issues : List String) (i : Nat) :
    positionsFromB i (ensureTrustedAdult slides issues).1 = positionsFromB i slides := by
  unfold ensureTrustedAdult
  split
  · rfl
  · exact positionsFromB_updateLast _
      (fun s => dictGet_dictSet_ne _ _ (by decide)) i slides

/-! ### Stage lemmas: the whole critic -/

theorem apply_ok_stages {st : Settings} {loads : String → Option PyVal} {net : NetOutcome}
    {slides : List PyDict} {res : SafetyCriticResult}
    (hen : st.safety_critic_enabled = true)
    (h : apply_safety_critic st loads net slides = .ok res) :
    slides ≠ [] ∧ ∃ pr review,
      processSlides st 0 slides = .ok pr ∧
      run_optional_llm_review st loads net = .ok review ∧
      res.slides = (ensureTrustedAdult (reposition 0 (coerce_two_choice_branch pr.1)) pr.2).1 ∧
      res.issues = (ensureTrustedAdult (reposition 0 (coerce_two_choice_branch pr.1)) pr.2).2 := by
  unfold apply_safety_critic at h
  rw [hen] at h
  simp only [Bool.not_true, Bool.false_eq_true, if_false] at h
  by_cases hne : slides.isEmpty
  · rw [if_pos hne] at h
    exact absurd h (by simp)
  · rw [if_neg hne] at h
    refine ⟨by simpa [List.isEmpty_iff] using hne, ?_⟩
    cases hp : processSlides st 0 slides with
    | error e =>
      rw [hp] at h
      exact absurd h (by simp [Bind.bind, Except.bind])
    | ok pr =>
      rw [hp] at h
      cases hr : run_optional_llm_review st loads net with
      | error e =>
        rw [hr] at h
        exact absurd h (by simp [Bind.bind, Except.bind])
      | ok review =>
        rw [hr] at h
        simp only [Bind.bind, Except.bind, Except.ok.injEq] at h
        exact ⟨pr, review, rfl, rfl, by rw [← h], by rw [← h]⟩

theorem slideTwoOneCorrect_set_pos (s : PyDict) (v : PyVal) :
    slideTwoOneCorrect (dictSet s "position" v) = slideTwoOneCorrect s := by
  unfold slideTwoOneCorrect
  rw [dictGet_dictSet_ne _ _ (by decide)]

theorem slideTwoOneCorrect_set_text (s : PyDict) (v : PyVal) :
    slideTwoOneCorrect (dictSet s "text" v) = slideTwoOneCorrect s := by
  unfold slideTwoOneCorrect
  rw [dictGet_dictSet_ne _ _ (by decide)]

/-! ### Concrete inputs used by witnesses and counterexamples -/

/-- A `json.loads` stand-in for runs where the parser is never consulted. -/
def noLoads : String → Option PyVal := fun _ => Option.none

/-- The slide text of the spec's scary-term scenario. -/
def gunText : String := "The man had a gun and threatened the child"

/-- A slide with the given text and two well-formed choices. -/
def exTwoChoiceSlide (t a b : String) : PyDict :=
  [("text", .vStr t),
   ("choices", .vList
     [.vDict [("id", .vStr "a"), ("text", .vStr a), ("correct", .vBool true)],
      .vDict [("id", .vStr "b"), ("text", .vStr b), ("correct", .vBool false)]])]

/-- Two slides, each already carrying a well-formed two-choice branch. -/
def c3Input : List PyDict :=
  [exTwoChoiceSlide "One" "Go" "Stay", exTwoChoiceSlide "Two" "Run" "Hide"]

/-- A single branchless slide with plain text. -/
def c2Input : List PyDict := [[("text", .vStr "A boy walks home.")]]

/-! ### Claims -/

/-- C1: the claim says the term-substitution pass removes every banned term as
a whole word and records each substitution.  The code's pattern
`rf"\\b{term}\\b"` matches the literal two characters `\b` around the term
(not a word boundary), so on the text "The man had a gun and threatened the
child" no substitution fires, no issue is recorded, and the critic's output
slide still contains "gun" as a whole word, case-insensitively.  This theorem
evaluates the code at that failing input. -/
theorem c1_gun_survives :
    sanitize_text gunText = (gunText, []) ∧
    containsWholeWordCI "gun" (sanitize_text gunText).1 = true ∧
    scIssues (apply_safety_critic defaultSettings noLoads NetOutcome.fail
      [[("text", .vStr gunText)]]) = [] ∧
    containsWholeWordCI "gun"
      (pyStr (dictGet ((scSlides (apply_safety_critic defaultSettings noLoads NetOutcome.fail
        [[("text", .vStr gunText)]])).headD []) "text")) = true :=
  ⟨rfl, rfl, rfl, rfl⟩

/-- C4: the claim says the scary-term density check counts whole-word scary
terms and reframes the text when the count exceeds the threshold, and that in
the scenario text "gun" is first replaced by "dangerous object".  Because the
`rf"\\b...\\b"` pattern matches a literal `\b`, the code counts 0 scary terms
on the scenario text (the spec-side whole-word count is 1: "gun"), performs no
substitution, and leaves the slide text unchanged — the replacement/reframing
behaviour the claim describes never happens.  This theorem evaluates the code
at that failing input (threshold 2 = the configured default). -/
theorem c4_scary_density_dead :
    count_scary_terms gunText = 0 ∧
    SCARY_TERMS.countP (fun term => containsWholeWordCI term gunText) = 1 ∧
    pyStr (dictGet ((scSlides (apply_safety_critic defaultSettings noLoads NetOutcome.fail
      [[("text", .vStr gunText)]])).headD []) "text") = gunText :=
  ⟨rfl, rfl, rfl⟩

/-- C2: for every slide list the enabled critic returns successfully, the
returned slides contain a trusted-adult reference (case-insensitive substring
of some slide text or choice text); and whenever the pre-check scan finds no
reference, the fixed trusted-adult sentence is appended to the final slide's
text and the fixed issue is recorded. -/
theorem c2_trusted_adult_guarantee (st : Settings) (loads : String → Option PyVal)
    (net : NetOutcome) (slides : List PyDict)
    (hen : st.safety_critic_enabled = true)
    (hok : isOkB (apply_safety_critic st loads net slides) = true) :
    has_trusted_adult_reference (scSlides (apply_safety_critic st loads net slides)) = true ∧
    (∀ slides' issues', slides' ≠ [] → has_trusted_adult_reference slides' = false →
      (ensureTrustedAdult slides' issues').2 = issues' ++ ["added trusted adult guidance"] ∧
      (ensureTrustedAdult slides' issues').1.dropLast = slides'.dropLast ∧
      lastText (ensureTrustedAdult slides' issues').1 = lastText slides' ++ trustedAdultSuffix) := by
  constructor
  · cases happ : apply_safety_critic st loads net slides with
    | error e => rw [happ] at hok; simp [isOkB] at hok
    | ok res =>
      obtain ⟨hne, pr, review, hp, hr, hs, hi⟩ := apply_ok_stages hen happ
      have hXne : reposition 0 (coerce_two_choice_branch pr.1) ≠ [] := by
        have h1 : (coerce_two_choice_branch pr.1).length ≠ 0 := by
          simpa [List.length_eq_zero] using coerce_ne_nil pr.1
        intro hx
        apply h1
        rw [← reposition_length 0 (coerce_two_choice_branch pr.1), hx]
        rfl
      simp only [happ, scSlides]
      rw [hs]
      exact ensure_hasRef pr.2 hXne
  · exact fun s' i' hn hf => ensure_not_ref i' hf hn

/-- C2 witness: a concrete run of the enabled critic on one branchless slide;
the returned slides mention a trusted adult. -/
theorem c2_trusted_adult_guarantee_witness :
    has_trusted_adult_reference
      (scSlides (apply_safety_critic defaultSettings noLoads NetOutcome.fail c2Input)) = true :=
  (c2_trusted_adult_guarantee defaultSettings noLoads NetOutcome.fail c2Input rfl (by rfl)).1

/-- C3 counterexample: the claim says *exactly one* returned slide has a
two-entry choice list with exactly one correct entry.  On an input with two
slides that each already carry such a branch, the enabled critic returns
successfully and *two* slides have that shape, so the claim as stated is
false. -/
theorem c3_exactly_one_counterexample :
    countTwoChoiceOneCorrect
      (scSlides (apply_safety_critic defaultSettings noLoads NetOutcome.fail c3Input)) = 2 ∧
    isOkB (apply_safety_critic defaultSettings noLoads NetOutcome.fail c3Input) = true :=
  ⟨rfl, rfl⟩

/-- C3 amended: every successfully returned slide set of the enabled critic has
*at least one* slide with a two-entry choice list with exactly one
`correct = True` entry; all positions are re-sequenced to `1..N`; and when no
input slide has at least two choice entries left after cleaning, the default
two-choice safety-decision slide is inserted (the result is one slide
longer). -/
theorem c3_at_least_one_branch (st : Settings) (loads : String → Option PyVal)
    (net : NetOutcome) (slides : List PyDict)
    (hen : st.safety_critic_enabled = true)
    (hok : isOkB (apply_safety_critic st loads net slides) = true) :
    1 ≤ countTwoChoiceOneCorrect (scSlides (apply_safety_critic st loads net slides)) ∧
    positionsFromB 0 (scSlides (apply_safety_critic st loads net slides)) = true ∧
    (slides.any inputCleanBranch = false →
      (scSlides (apply_safety_critic st loads net slides)).length = slides.length + 1) := by
  cases happ : apply_safety_critic st loads net slides with
  | error e => rw [happ] at hok; simp [isOkB] at hok
  | ok res =>
    obtain ⟨hne, pr, review, hp, hr, hs, hi⟩ := apply_ok_stages hen happ
    simp only [scSlides]
    refine ⟨?_, ?_, ?_⟩
    · have hany : res.slides.any slideTwoOneCorrect = true := by
        rw [hs, ensure_any_pres _ slideTwoOneCorrect_set_text,
          reposition_any _ slideTwoOneCorrect_set_pos]
        exact coerce_anyTwoOne pr.1
      obtain ⟨a, ha, hpa⟩ := List.any_eq_true.mp hany
      exact List.countP_pos_iff.mpr ⟨a, ha, hpa⟩
    · rw [hs, positionsFromB_ensure]
      exact positionsFromB_reposition 0 _
    · intro hnc
      have hb : pr.1.any slideHasBranch = false := by
        rw [processSlides_any_branch hp, hnc]
      rw [hs, ensure_length, reposition_length, coerce_length, hb,
        processSlides_length hp]
      simp

/-- C3 witness: on one branchless slide, the amended invariant holds — at least
one returned slide is a well-formed two-choice branch. -/
theorem c3_at_least_one_branch_witness :
    1 ≤ countTwoChoiceOneCorrect
      (scSlides (apply_safety_critic defaultSettings noLoads NetOutcome.fail c2Input)) :=
  (c3_at_least_one_branch defaultSettings noLoads NetOutcome.fail c2Input rfl (by rfl)).1

/-- C10: the enabled, non-strict critic returns input-length-many slides when
some input slide still has at least two choice entries after cleaning, and one
extra slide (the inserted default branch) otherwise. -/
theorem c10_slide_count (st : Settings) (loads : String → Option PyVal)
    (net : NetOutcome) (slides : List PyDict)
    (hen : st.safety_critic_enabled = true)
    (_hstrict : st.safety_critic_strict = false)
    (_hne : slides ≠ [])
    (hok : isOkB (apply_safety_critic st loads net slides) = true) :
    (scSlides (apply_safety_critic st loads net slides)).length =
      (if slides.any inputCleanBranch then slides.length else slides.length + 1) := by
  cases happ : apply_safety_critic st loads net slides with
  | error e => rw [happ] at hok; simp [isOkB] at hok
  | ok res =>
    obtain ⟨-, pr, review, hp, hr, hs, hi⟩ := apply_ok_stages hen happ
    simp only [scSlides]
    rw [hs, ensure_length, reposition_length, coerce_length,
      processSlides_any_branch hp, processSlides_length hp]

/-- C10 witness: a concrete branchy two-slide input comes back with exactly two
slides. -/
theorem c10_slide_count_witness :
    (scSlides (apply_safety_critic defaultSettings noLoads NetOutcome.fail c3Input)).length =
      (if c3Input.any inputCleanBranch then c3Input.length else c3Input.length + 1) :=
  c10_slide_count defaultSettings noLoads NetOutcome.fail c3Input rfl rfl
    (by simp [c3Input]) (by rfl)

/-! ### Normalizer predicates and lemmas -/

/-- A raw slide entry the normalizer keeps: a dict whose `text` is a string
that is non-blank after stripping. -/
def validSlideRecordB (v : PyVal) : Bool :=
  match v with
  | .vDict d =>
    match dictGet d "text" with
    | .vStr t => !(pyStrip t).data.isEmpty
    | _ => false
  | _ => false

/-- The raw payload has a parseable, non-empty slide list. -/
def parseableSlidesB (raw : PyDict) : Bool :=
  match dictGet raw "slides" with
  | .vList l => !l.isEmpty
  | _ => false

/-- Number of valid slide records among the first 8 raw entries. -/
def validCount (raw : PyDict) : Nat :=
  match dictGet raw "slides" with
  | .vList l => (l.take 8).countP validSlideRecordB
  | _ => 0

/-- A raw choice candidate `_normalize_choices` keeps: a dict with a non-blank
string `text` and a boolean `correct`. -/
def validChoiceCandB (c : PyVal) : Bool :=
  match c with
  | .vDict d =>
    match dictGet d "text", dictGet d "correct" with
    | .vStr t, .vBool _ => !(pyStrip t).data.isEmpty
    | _, _ => false
  | _ => false

/-- Number of valid choice candidates in a raw choices value. -/
def validChoiceCount (raw : PyVal) : Nat :=
  match raw with
  | .vList cs => cs.countP validChoiceCandB
  | _ => 0

/-- A well-formed Choice entity per the data model: non-empty string id,
non-empty string text, boolean correct. -/
def wellFormedChoiceB (c : PyDict) : Bool :=
  (match dictGet c "id" with
   | .vStr i => !i.data.isEmpty
   | _ => false) &&
  (match dictGet c "text" with
   | .vStr t => !t.data.isEmpty
   | _ => false) &&
  (match dictGet c "correct" with
   | .vBool _ => true
   | _ => false)

/-- A normalized slide's choices are `None` or a non-empty list of well-formed
Choice dicts. -/
def slideChoicesWFB (s : PyDict) : Bool :=
  match dictGet s "choices" with
  | .vNone => true
  | .vList cs =>
    !cs.isEmpty && cs.all (fun c =>
      match c with
      | .vDict d => wellFormedChoiceB d
      | _ => false)
  | _ => false

/-- The claim's shape: choices are `None` or a list of exactly two entries. -/
def choicesNullOrTwoB (s : PyDict) : Bool :=
  match dictGet s "choices" with
  | .vNone => true
  | .vList cs => decide (cs.length = 2)
  | _ => false

/-- The valid choice candidates of a list, each paired with its raw index
(`enumerate` numbers skipped entries too). -/
def validCandidatesFrom : Nat → List PyVal → List (Nat × PyVal)
  | _, [] => []
  | idx, c :: rest =>
    if validChoiceCandB c then (idx, c) :: validCandidatesFrom (idx + 1) rest
    else validCandidatesFrom (idx + 1) rest

/-- The valid choice candidates of a raw choices value, with raw indices. -/
def validCandidates (raw : PyVal) : List (Nat × PyVal) :=
  match raw with
  | .vList cs => validCandidatesFrom 0 cs
  | _ => []

/-- Modelled from the spec: the well-formed Choice entity the claim says a
valid candidate at raw index `idx` becomes — its stripped text, its boolean
`correct` flag, and its own stripped id when that is a non-blank string,
otherwise the default id `a`, `b`, `c`, ... for the candidate's raw index.
The fallback fields for invalid candidates are never exercised: this function
is only applied to valid candidates. -/
def specChoice (idx : Nat) (c : PyVal) : PyDict :=
  match c with
  | .vDict d =>
    [("id", .vStr
       (match dictGet d "id" with
        | .vStr rid => if (pyStrip rid).data.isEmpty then chrId idx else pyStrip rid
        | _ => chrId idx)),
     ("text", .vStr
       (match dictGet d "text" with
        | .vStr t => pyStrip t
        | _ => "")),
     ("correct",
       match dictGet d "correct" with
       | .vBool b => .vBool b
       | _ => .vBool false)]
  | _ => [("id", .vStr (chrId idx)), ("text", .vStr ""), ("correct", .vBool false)]

theorem validSlidesAux_length (i : Nat) (l : List PyVal) :
    (validSlidesAux i l).length = l.countP validSlideRecordB := by
  induction l generalizing i with
  | nil => simp [validSlidesAux]
  | cons rs rest ih =>
    cases rs with
    | vDict d =>
      cases ht : dictGet d "text" with
      | vStr t =>
        by_cases he : (pyStrip t).data.isEmpty <;>
          simp [validSlidesAux, validSlideRecordB, List.countP_cons, ht, he, ih]
      | vNone => simp [validSlidesAux, validSlideRecordB, List.countP_cons, ht, ih]
      | vBool b => simp [validSlidesAux, validSlideRecordB, List.countP_cons, ht, ih]
      | vInt n => simp [validSlidesAux, validSlideRecordB, List.countP_cons, ht, ih]
      | vList xs => simp [validSlidesAux, validSlideRecordB, List.countP_cons, ht, ih]
      | vDict d' => simp [validSlidesAux, validSlideRecordB, List.countP_cons, ht, ih]
    | vNone => simp [validSlidesAux, validSlideRecordB, List.countP_cons, ih]
    | vBool b => simp [validSlidesAux, validSlideRecordB, List.countP_cons, ih]
    | vInt n => simp [validSlidesAux, validSlideRecordB, List.countP_cons, ih]
    | vStr s => simp [validSlidesAux, validSlideRecordB, List.countP_cons, ih]
    | vList xs => simp [validSlidesAux, validSlideRecordB, List.countP_cons, ih]

theorem validSlidesAux_positions (i : Nat) (l : List PyVal)
    (h : l.all validSlideRecordB = true) :
    positionsFromB i (validSlidesAux i l) = true := by
  induction l generalizing i with
  | nil => rfl
  | cons rs rest ih =>
    simp only [List.all_cons, Bool.and_eq_true] at h
    obtain ⟨hv, hrest⟩ := h
    cases rs with
    | vDict d =>
      simp only [validSlideRecordB] at hv
      cases ht : dictGet d "text" with
      | vStr t =>
        rw [ht] at hv
        have hv' : (pyStrip t).data.isEmpty = false := by simpa using hv
        simp only [validSlidesAux, ht, hv', Bool.false_eq_true, if_false, positionsFromB,
          Bool.and_eq_true]
        refine ⟨?_, ih (i + 1) hrest⟩
        simp [dictGet, dictGetD, dictGet?, pyValBEq]
      | vNone => rw [ht] at hv; simp at hv
      | vBool b => rw [ht] at hv; simp at hv
      | vInt n => rw [ht] at hv; simp at hv
      | vList xs => rw [ht] at hv; simp at hv
      | vDict d' => rw [ht] at hv; simp at hv
    | vNone => simp [validSlideRecordB] at hv
    | vBool b => simp [validSlideRecordB] at hv
    | vInt n => simp [validSlideRecordB] at hv
    | vStr s => simp [validSlideRecordB] at hv
    | vList xs => simp [validSlideRecordB] at hv

theorem normChoicesAux_length (i : Nat) (cs : List PyVal) :
    (normChoicesAux i cs).length = cs.countP validChoiceCandB := by
  induction cs generalizing i with
  | nil => simp [normChoicesAux]
  | cons c rest ih =>
    cases c with
    | vDict d =>
      cases ht : dictGet d "text" with
      | vStr t =>
        cases hc : dictGet d "correct" with
        | vBool b =>
          by_cases he : (pyStrip t).data.isEmpty <;>
            simp [normChoicesAux, validChoiceCandB, List.countP_cons, ht, hc, he, ih]
        | vNone => simp [normChoicesAux, validChoiceCandB, List.countP_cons, ht, hc, ih]
        | vInt n => simp [normChoicesAux, validChoiceCandB, List.countP_cons, ht, hc, ih]
        | vStr s => simp [normChoicesAux, validChoiceCandB, List.countP_cons, ht, hc, ih]
        | vList xs => simp [normChoicesAux, validChoiceCandB, List.countP_cons, ht, hc, ih]
        | vDict d' => simp [normChoicesAux, validChoiceCandB, List.countP_cons, ht, hc, ih]
      | vNone => simp [normChoicesAux, validChoiceCandB, List.countP_cons, ht, ih]
      | vBool b => simp [normChoicesAux, validChoiceCandB, List.countP_cons, ht, ih]
      | vInt n => simp [normChoicesAux, validChoiceCandB, List.countP_cons, ht, ih]
      | vList xs => simp [normChoicesAux, validChoiceCandB, List.countP_cons, ht, ih]
      | vDict d' => simp [normChoicesAux, validChoiceCandB, List.countP_cons, ht, ih]
    | vNone => simp [normChoicesAux, validChoiceCandB, List.countP_cons, ih]
    | vBool b => simp [normChoicesAux, validChoiceCandB, List.countP_cons, ih]
    | vInt n => simp [normChoicesAux, validChoiceCandB, List.countP_cons, ih]
    | vStr s => simp [normChoicesAux, validChoiceCandB, List.countP_cons, ih]
    | vList xs => simp [normChoicesAux, validChoiceCandB, List.countP_cons, ih]

theorem normChoicesAux_eq_spec (i : Nat) (cs : List PyVal) :
    normChoicesAux i cs = (validCandidatesFrom i cs).map (fun p => specChoice p.1 p.2) := by
  induction cs generalizing i with
  | nil => rfl
  | cons c rest ih =>
    cases c with
    | vDict d =>
      cases ht : dictGet d "text" with
      | vStr t =>
        cases hc : dictGet d "correct" with
        | vBool b =>
          by_cases he : (pyStrip t).data.isEmpty
          · simp [normChoicesAux, validCandidatesFrom, validChoiceCandB, ht, hc, he, ih]
          · simp only [normChoicesAux, validCandidatesFrom, validChoiceCandB, ht, hc, he,
              Bool.not_false, Bool.false_eq_true, if_false, if_true, List.map_cons,
              specChoice, List.cons.injEq]
            exact ⟨trivial, ih (i + 1)⟩
        | vNone => simp [normChoicesAux, validCandidatesFrom, validChoiceCandB, ht, hc, ih]
        | vInt n => simp [normChoicesAux, validCandidatesFrom, validChoiceCandB, ht, hc, ih]
        | vStr s => simp [normChoicesAux, validCandidatesFrom, validChoiceCandB, ht, hc, ih]
        | vList xs => simp [normChoicesAux, validCandidatesFrom, validChoiceCandB, ht, hc, ih]
        | vDict d' => simp [normChoicesAux, validCandidatesFrom, validChoiceCandB, ht, hc, ih]
      | vNone => simp [normChoicesAux, validCandidatesFrom, validChoiceCandB, ht, ih]
      | vBool b => simp [normChoicesAux, validCandidatesFrom, validChoiceCandB, ht, ih]
      | vInt n => simp [normChoicesAux, validCandidatesFrom, validChoiceCandB, ht, ih]
      | vList xs => simp [normChoicesAux, validCandidatesFrom, validChoiceCandB, ht, ih]
      | vDict d' => simp [normChoicesAux, validCandidatesFrom, validChoiceCandB, ht, ih]
    | vNone => simp [normChoicesAux, validCandidatesFrom, validChoiceCandB, ih]
    | vBool b => simp [normChoicesAux, validCandidatesFrom, validChoiceCandB, ih]
    | vInt n => simp [normChoicesAux, validCandidatesFrom, validChoiceCandB, ih]
    | vStr s => simp [normChoicesAux, validCandidatesFrom, validChoiceCandB, ih]
    | vList xs => simp [normChoicesAux, validCandidatesFrom, validChoiceCandB, ih]

theorem chrId_nonempty (i : Nat) : (chrId i).data.isEmpty = false := rfl

theorem normChoicesAux_wf (i : Nat) (cs : List PyVal) :
    (normChoicesAux i cs).all wellFormedChoiceB = true := by
  induction cs generalizing i with
  | nil => rfl
  | cons c rest ih =>
    cases c with
    | vDict d =>
      cases ht : dictGet d "text" with
      | vStr t =>
        cases hc : dictGet d "correct" with
        | vBool b =>
          by_cases he : (pyStrip t).data.isEmpty
          · simp [normChoicesAux, ht, hc, he, ih]
          · simp only [normChoicesAux, ht, hc, he, Bool.false_eq_true, if_false,
              List.all_cons, Bool.and_eq_true]
            refine ⟨?_, ih (i + 1)⟩
            cases hid : dictGet d "id" with
            | vStr rid =>
              by_cases hre : (pyStrip rid).data.isEmpty <;>
                simp [wellFormedChoiceB, dictGet, dictGetD, dictGet?, hre, he, chrId_nonempty]
            | vNone => simp [wellFormedChoiceB, dictGet, dictGetD, dictGet?, he, chrId_nonempty]
            | vBool b' => simp [wellFormedChoiceB, dictGet, dictGetD, dictGet?, he, chrId_nonempty]
            | vInt n => simp [wellFormedChoiceB, dictGet, dictGetD, dictGet?, he, chrId_nonempty]
            | vList xs => simp [wellFormedChoiceB, dictGet, dictGetD, dictGet?, he, chrId_nonempty]
            | vDict d' => simp [wellFormedChoiceB, dictGet, dictGetD, dictGet?, he, chrId_nonempty]
        | vNone => simp [normChoicesAux, ht, hc, ih]
        | vInt n => simp [normChoicesAux, ht, hc, ih]
        | vStr s => simp [normChoicesAux, ht, hc, ih]
        | vList xs => simp [normChoicesAux, ht, hc, ih]
        | vDict d' => simp [normChoicesAux, ht, hc, ih]
      | vNone => simp [normChoicesAux, ht, ih]
      | vBool b => simp [normChoicesAux, ht, ih]
      | vInt n => simp [normChoicesAux, ht, ih]
      | vList xs => simp [normChoicesAux, ht, ih]
      | vDict d' => simp [normChoicesAux, ht, ih]
    | vNone => simp [normChoicesAux, ih]
    | vBool b => simp [normChoicesAux, ih]
    | vInt n => simp [normChoicesAux, ih]
    | vStr s => simp [normChoicesAux, ih]
    | vList xs => simp [normChoicesAux, ih]

theorem wellFormedChoiceB_set_correct {c : PyDict} (h : wellFormedChoiceB c = true) :
    wellFormedChoiceB (dictSet c "correct" (.vBool true)) = true := by
  unfold wellFormedChoiceB at h ⊢
  rw [dictGet_dictSet_ne _ _ (by decide), dictGet_dictSet_ne _ _ (by decide),
    dictGet_dictSet_self]
  simp only [Bool.and_eq_true] at h ⊢
  exact ⟨h.1, trivial⟩

theorem forceFirstCorrect_wf {cs : List PyDict} (h : cs.all wellFormedChoiceB = true) :
    (forceFirstCorrect cs).all wellFormedChoiceB = true := by
  cases cs with
  | nil => rfl
  | cons c rest =>
    simp only [List.all_cons, Bool.and_eq_true] at h
    simp only [forceFirstCorrect, List.all_cons, Bool.and_eq_true]
    exact ⟨wellFormedChoiceB_set_correct h.1, h.2⟩

theorem normalize_choices_isSome (raw : PyVal) :
    (normalize_choices raw).isSome = decide (0 < validChoiceCount raw) := by
  cases raw with
  | vList cs =>
    unfold normalize_choices validChoiceCount
    have hl := normChoicesAux_length 0 cs
    by_cases he : (normChoicesAux 0 cs).isEmpty
    · have h0 : cs.countP validChoiceCandB = 0 := by
        rw [← hl]
        simpa [List.isEmpty_iff_length_eq_zero] using he
      simp [he, h0]
    · have h0 : cs.countP validChoiceCandB ≠ 0 := by
        rw [← hl]
        simpa [List.isEmpty_iff_length_eq_zero] using he
      simp only [he, Bool.false_eq_true, if_false, Option.isSome_some]
      exact (decide_eq_true (by omega)).symm
  | vNone => rfl
  | vBool b => rfl
  | vInt n => rfl
  | vStr s => rfl
  | vDict d => rfl

theorem normalize_choices_some {raw : PyVal} {cs : List PyDict}
    (h : normalize_choices raw = Option.some cs) :
    cs.length = validChoiceCount raw ∧ cs.all wellFormedChoiceB = true ∧ cs ≠ [] := by
  cases raw with
  | vList l =>
    simp only [normalize_choices] at h
    by_cases he : (normChoicesAux 0 l).isEmpty
    · simp [he] at h
    · simp only [he, Bool.false_eq_true, if_false, Option.some.injEq] at h
      subst h
      refine ⟨normChoicesAux_length 0 l, normChoicesAux_wf 0 l, ?_⟩
      simpa [List.isEmpty_iff] using he
  | vNone => exact absurd h (by simp [normalize_choices])
  | vBool b => exact absurd h (by simp [normalize_choices])
  | vInt n => exact absurd h (by simp [normalize_choices])
  | vStr s => exact absurd h (by simp [normalize_choices])
  | vDict d => exact absurd h (by simp [normalize_choices])

theorem normalize_choices_eq_spec {raw : PyVal} {cs : List PyDict}
    (h : normalize_choices raw = Option.some cs) :
    cs = (validCandidates raw).map (fun p => specChoice p.1 p.2) := by
  cases raw with
  | vList l =>
    simp only [normalize_choices] at h
    by_cases he : (normChoicesAux 0 l).isEmpty
    · simp [he] at h
    · simp only [he, Bool.false_eq_true, if_false, Option.some.injEq] at h
      subst h
      exact normChoicesAux_eq_spec 0 l
  | vNone => exact absurd h (by simp [normalize_choices])
  | vBool b => exact absurd h (by simp [normalize_choices])
  | vInt n => exact absurd h (by simp [normalize_choices])
  | vStr s => exact absurd h (by simp [normalize_choices])
  | vDict d => exact absurd h (by simp [normalize_choices])

theorem slideChoices_some {raw : PyVal} {cs : List PyDict}
    (h : slideChoices raw = Option.some cs) :
    cs.all wellFormedChoiceB = true ∧ cs ≠ [] := by
  unfold slideChoices at h
  cases hn : normalize_choices raw with
  | none => rw [hn] at h; exact absurd h (by simp)
  | some cs0 =>
    rw [hn] at h
    simp only [] at h
    obtain ⟨-, hwf, hne⟩ := normalize_choices_some hn
    by_cases ha : (cs0.any fun c => pyTruthy (dictGet c "correct")) = true
    · rw [if_pos ha] at h
      simp only [Option.some.injEq] at h
      subst h
      exact ⟨hwf, hne⟩
    · rw [if_neg ha] at h
      simp only [Option.some.injEq] at h
      subst h
      refine ⟨forceFirstCorrect_wf hwf, ?_⟩
      cases cs0 with
      | nil => exact absurd rfl hne
      | cons c r => simp [forceFirstCorrect]

theorem all_map_vDict (p : PyDict → Bool) (cs : List PyDict) :
    ((cs.map PyVal.vDict).all fun c =>
      match c with
      | PyVal.vDict d => p d
      | _ => false) = cs.all p := by
  induction cs with
  | nil => rfl
  | cons c r ih => simp [ih]

theorem validSlidesAux_choicesWF (i : Nat) (l : List PyVal) :
    (validSlidesAux i l).all slideChoicesWFB = true := by
  induction l generalizing i with
  | nil => rfl
  | cons rs rest ih =>
    cases rs with
    | vDict d =>
      cases ht : dictGet d "text" with
      | vStr t =>
        by_cases he : (pyStrip t).data.isEmpty
        · simp [validSlidesAux, ht, he, ih]
        · simp only [validSlidesAux, ht, he, Bool.false_eq_true, if_false, List.all_cons,
            Bool.and_eq_true]
          refine ⟨?_, ih (i + 1)⟩
          cases hsc : slideChoices (dictGet d "choices") with
          | none => simp [slideChoicesWFB, dictGet, dictGetD, dictGet?]
          | some cs =>
            obtain ⟨hwf, hne⟩ := slideChoices_some hsc
            have hget : dictGet [("position", PyVal.vInt (i + 1)),
                ("text", .vStr (pyStrip t)),
                ("choices", PyVal.vList (cs.map .vDict))] "choices" =
                .vList (cs.map .vDict) := rfl
            unfold slideChoicesWFB
            rw [hget]
            simp only [Bool.and_eq_true]
            refine ⟨?_, ?_⟩
            · simpa [List.isEmpty_iff] using fun hcc => hne (by simpa using hcc)
            · rw [all_map_vDict]
              exact hwf
      | vNone => simp [validSlidesAux, ht, ih]
      | vBool b => simp [validSlidesAux, ht, ih]
      | vInt n => simp [validSlidesAux, ht, ih]
      | vList xs => simp [validSlidesAux, ht, ih]
      | vDict d' => simp [validSlidesAux, ht, ih]
    | vNone => simp [validSlidesAux, ih]
    | vBool b => simp [validSlidesAux, ih]
    | vInt n => simp [validSlidesAux, ih]
    | vStr s => simp [validSlidesAux, ih]
    | vList xs => simp [validSlidesAux, ih]

theorem pyOrStr_nonempty {v : Option String} {d : String} (hd : d.data.isEmpty = false) :
    (pyOrStr v d).data.isEmpty = false := by
  cases v with
  | none => exact hd
  | some s =>
    unfold pyOrStr
    by_cases he : s.data.isEmpty <;> simp [he, hd]

theorem genDefault_choicesWF (payload : StoryCreateRequest) :
    slideChoicesWFB (genDefaultBranchSlide payload) = true := by
  unfold genDefaultBranchSlide slideChoicesWFB
  have hg : (pyOrStr payload.moralLesson "Say no and tell a trusted adult.").data.isEmpty
      = false := pyOrStr_nonempty (by rfl)
  simp [dictGet, dictGetD, dictGet?, wellFormedChoiceB, hg]

theorem slideChoicesWFB_set_pos (s : PyDict) (v : PyVal) :
    slideChoicesWFB (dictSet s "position" v) = slideChoicesWFB s := by
  unfold slideChoicesWFB
  rw [dictGet_dictSet_ne _ _ (by decide)]

theorem validate_unfold {rawPayload : PyDict} {payload : StoryCreateRequest}
    {rawSlides : List PyVal} (hget : dictGet rawPayload "slides" = .vList rawSlides) :
    validate_and_normalize_slides rawPayload payload =
      (if rawSlides.isEmpty then .error "Model did not return valid slides list"
       else if (validSlidesAux 0 (rawSlides.take 8)).length < 3 then
         .error "Model returned too few valid slides"
       else if (validSlidesAux 0 (rawSlides.take 8)).any
           (fun s => pyTruthy (dictGet s "choices")) then
         .ok (validSlidesAux 0 (rawSlides.take 8))
       else
         .ok (reposition 0
           ((insertAt (min 1 (validSlidesAux 0 (rawSlides.take 8)).length)
              (genDefaultBranchSlide payload) (validSlidesAux 0 (rawSlides.take 8))).take 8))) := by
  unfold validate_and_normalize_slides
  rw [hget]

/-! ### Claims C5-C7 -/

/-- Raw payload exhibiting the position gap: a dropped junk entry between
valid slides. -/
def c5Input : PyDict :=
  [("slides", .vList
    [.vDict (exTwoChoiceSlide "S1" "Go" "Stay"), .vStr "junk",
     .vDict [("text", .vStr "S3")], .vDict [("text", .vStr "S4")]])]

/-- A fixed request payload for normalizer runs. -/
def c5Payload : StoryCreateRequest :=
  ⟨"Title", "Topic", "6-8", "en", 1, Option.none, "d", Option.none⟩

/-- C5 counterexample: the claim says every successful normalization returns
sequential positions `1..N` with no gaps.  On a payload whose second raw entry
is dropped (not a dict), normalization succeeds but keeps the raw indices as
positions — `[1, 3, 4]` — because re-sequencing only happens on the
insert-default-branch path.  The claim as stated is false. -/
theorem c5_position_gap_counterexample :
    positionsOf (genSlides (validate_and_normalize_slides c5Input c5Payload)) =
      [.vInt 1, .vInt 3, .vInt 4] ∧
    isOkB (validate_and_normalize_slides c5Input c5Payload) = true :=
  ⟨rfl, rfl⟩

/-- C5 amended: positions are `1 +` the entry's raw index, so they are
sequential `1..N` whenever no considered raw entry is dropped; in particular,
for any list of at least 3 valid slide records (dicts with non-blank string
text) normalization succeeds and returns sequential positions `1..N`. -/
theorem c5_sequential_when_all_valid (rawSlides : List PyVal)
    (payload : StoryCreateRequest)
    (hv : rawSlides.all validSlideRecordB = true) (h3 : 3 ≤ rawSlides.length) :
    isOkB (validate_and_normalize_slides [("slides", .vList rawSlides)] payload) = true ∧
    positionsFromB 0
      (genSlides (validate_and_normalize_slides [("slides", .vList rawSlides)] payload))
      = true := by
  have hget : dictGet [("slides", PyVal.vList rawSlides)] "slides" = .vList rawSlides := rfl
  have hne : rawSlides.isEmpty = false := by
    cases rawSlides with
    | nil => simp at h3
    | cons a t => rfl
  have hlen : ¬ (validSlidesAux 0 (rawSlides.take 8)).length < 3 := by
    rw [validSlidesAux_length]
    have hall : ∀ a ∈ rawSlides.take 8, validSlideRecordB a = true := by
      intro a ha
      exact List.all_eq_true.mp (all_take _ 8 hv) a ha
    rw [List.countP_eq_length.mpr hall, List.length_take]
    omega
  rw [validate_unfold hget, hne]
  simp only [Bool.false_eq_true, if_false]
  rw [if_neg hlen]
  by_cases hb : ((validSlidesAux 0 (rawSlides.take 8)).any
      (fun s => pyTruthy (dictGet s "choices"))) = true
  · rw [if_pos hb]
    exact ⟨rfl, validSlidesAux_positions 0 _ (all_take _ 8 hv)⟩
  · rw [if_neg hb]
    exact ⟨rfl, positionsFromB_reposition 0 _⟩

/-- Slides used by the C5 witness: three valid records. -/
def c5WitnessSlides : List PyVal :=
  [.vDict [("text", .vStr "W1")], .vDict [("text", .vStr "W2")],
   .vDict [("text", .vStr "W3")]]

/-- C5 witness: three valid slide records normalize to sequential positions. -/
theorem c5_sequential_when_all_valid_witness :
    positionsFromB 0
      (genSlides (validate_and_normalize_slides [("slides", .vList c5WitnessSlides)] c5Payload))
      = true :=
  (c5_sequential_when_all_valid c5WitnessSlides c5Payload (by rfl) (by decide)).2

/-- Raw payload whose first slide keeps exactly one valid choice. -/
def c6Input : PyDict :=
  [("slides", .vList
    [.vDict [("text", .vStr "S1"),
             ("choices", .vList [.vDict [("text", .vStr "only"), ("correct", .vBool false)]])],
     .vDict [("text", .vStr "S2")], .vDict [("text", .vStr "S3")]])]

/-- C6 counterexample: the claim says every normalized slide's choices are null
or a list of exactly two well-formed choices, and that fewer than 1 valid
candidate yields null.  A slide with exactly one valid candidate comes back
with a one-entry choice list (the code never truncates or pads to two), so the
"exactly two" part of the claim is false. -/
theorem c6_exactly_two_counterexample :
    (genSlides (validate_and_normalize_slides c6Input c5Payload)).all choicesNullOrTwoB
      = false ∧
    isOkB (validate_and_normalize_slides c6Input c5Payload) = true :=
  ⟨rfl, rfl⟩

/-- C6 amended: `_normalize_choices` returns `None` exactly when no valid
candidate (non-empty string text and boolean correct) exists; otherwise it
returns exactly the valid candidates in order — a non-empty list that is
*not* truncated to two — each normalized per the spec's words (`specChoice`):
stripped text, the given correct flag, and the id defaulting to the letter
`a`, `b`, `c`, ... of the candidate's raw index when absent or blank; and
every slide of a successful normalization has choices that are null or a
non-empty list of well-formed choices. -/
theorem c6_choices_shape (raw : PyVal) (rawPayload : PyDict)
    (payload : StoryCreateRequest) :
    (normalize_choices raw).isSome = decide (0 < validChoiceCount raw) ∧
    (∀ cs, normalize_choices raw = Option.some cs →
      cs.length = validChoiceCount raw ∧ cs.all wellFormedChoiceB = true ∧
      cs = (validCandidates raw).map (fun p => specChoice p.1 p.2)) ∧
    (genSlides (validate_and_normalize_slides rawPayload payload)).all slideChoicesWFB
      = true := by
  refine ⟨normalize_choices_isSome raw,
    fun cs h => ⟨(normalize_choices_some h).1, (normalize_choices_some h).2.1,
      normalize_choices_eq_spec h⟩, ?_⟩
  cases hraw : dictGet rawPayload "slides" with
  | vList rawSlides =>
    rw [validate_unfold hraw]
    by_cases hne : rawSlides.isEmpty
    · simp [hne, genSlides]
    · rw [if_neg (by simp [hne])]
      by_cases hlen : (validSlidesAux 0 (rawSlides.take 8)).length < 3
      · simp [hlen, genSlides]
      · rw [if_neg hlen]
        by_cases hb : ((validSlidesAux 0 (rawSlides.take 8)).any
            (fun s => pyTruthy (dictGet s "choices"))) = true
        · rw [if_pos hb]
          exact validSlidesAux_choicesWF 0 _
        · rw [if_neg hb]
          simp only [genSlides]
          rw [reposition_all _ slideChoicesWFB_set_pos]
          apply all_take
          rw [all_insertAt]
          simp only [Bool.and_eq_true]
          exact ⟨genDefault_choicesWF payload, validSlidesAux_choicesWF 0 _⟩
  | vNone => simp [validate_and_normalize_slides, hraw, genSlides]
  | vBool b => simp [validate_and_normalize_slides, hraw, genSlides]
  | vInt n => simp [validate_and_normalize_slides, hraw, genSlides]
  | vStr s => simp [validate_and_normalize_slides, hraw, genSlides]
  | vDict d => simp [validate_and_normalize_slides, hraw, genSlides]

/-- Raw choices value whose only valid candidate sits at raw index 1 and has
no id: its kept choice must receive the default id "b". -/
def c6IdRaw : PyVal :=
  .vList [.vStr "junk", .vDict [("text", .vStr "only"), ("correct", .vBool false)]]

/-- C6 witness: a concrete instantiation of the amended shape theorem — the
candidate at raw index 1 with no id comes back as the single kept choice with
the default id "b". -/
theorem c6_choices_shape_witness :
    (normalize_choices c6IdRaw).isSome = decide (0 < validChoiceCount c6IdRaw) ∧
    ([[("id", PyVal.vStr "b"), ("text", PyVal.vStr "only"), ("correct", PyVal.vBool false)]]
        : List PyDict)
      = (validCandidates c6IdRaw).map (fun p => specChoice p.1 p.2) ∧
    (genSlides (validate_and_normalize_slides c6Input c5Payload)).all slideChoicesWFB = true :=
  ⟨(c6_choices_shape c6IdRaw c6Input c5Payload).1,
   ((c6_choices_shape c6IdRaw c6Input c5Payload).2.1
      [[("id", PyVal.vStr "b"), ("text", PyVal.vStr "only"), ("correct", PyVal.vBool false)]]
      rfl).2.2,
   (c6_choices_shape c6IdRaw c6Input c5Payload).2.2⟩

/-- C7: normalization fails exactly when the payload has no parseable non-empty
slide list or fewer than 3 valid slides remain among the first 8 entries after
filtering; and a 2-slide input raises `StoryGenerationError` with message
"Model returned too few valid slides". -/
theorem c7_error_conditions (rawPayload : PyDict) (payload : StoryCreateRequest) :
    isOkB (validate_and_normalize_slides rawPayload payload) =
      (parseableSlidesB rawPayload && decide (3 ≤ validCount rawPayload)) ∧
    validate_and_normalize_slides
      [("slides", .vList [.vDict [("text", .vStr "First slide.")],
                          .vDict [("text", .vStr "Second slide.")]])] payload =
      .error "Model returned too few valid slides" := by
  constructor
  · cases hraw : dictGet rawPayload "slides" with
    | vList rawSlides =>
      rw [validate_unfold hraw]
      simp only [parseableSlidesB, validCount, hraw]
      by_cases hne : rawSlides.isEmpty
      · simp [hne, isOkB]
      · rw [if_neg (by simp [hne])]
        simp only [hne, Bool.not_false, Bool.true_and]
        by_cases hlen : (validSlidesAux 0 (rawSlides.take 8)).length < 3
        · rw [if_pos hlen]
          have h3 : ¬ 3 ≤ (rawSlides.take 8).countP validSlideRecordB := by
            rw [← validSlidesAux_length 0]
            omega
          simp [isOkB, h3]
        · rw [if_neg hlen]
          have h3 : 3 ≤ (rawSlides.take 8).countP validSlideRecordB := by
            rw [← validSlidesAux_length 0]
            omega
          split <;> simp [isOkB, h3]
    | vNone => simp [validate_and_normalize_slides, parseableSlidesB, validCount, hraw, isOkB]
    | vBool b => simp [validate_and_normalize_slides, parseableSlidesB, validCount, hraw, isOkB]
    | vInt n => simp [validate_and_normalize_slides, parseableSlidesB, validCount, hraw, isOkB]
    | vStr s => simp [validate_and_normalize_slides, parseableSlidesB, validCount, hraw, isOkB]
    | vDict d => simp [validate_and_normalize_slides, parseableSlidesB, validCount, hraw, isOkB]
  · rfl

/-! ### Claim C8 (optional LLM review) -/

/-- Settings with the optional LLM review turned on. -/
def reviewSettings : Settings :=
  { defaultSettings with safety_critic_enable_llm_review := true }

/-- A `json.loads` model for the counterexample run: the body "[]" parses to an
empty JSON array (as Python's `json.loads("[]")` does); everything else fails
to parse. -/
def listLoads : String → Option PyVal :=
  fun s => if s = "[]" then Option.some (.vList []) else Option.none

/-- C8 counterexample: the claim says the optional review never raises on any
input.  When the review is enabled and the HTTP body is "[]" — a parseable
non-object — `json.loads` succeeds with a list, and `body.get("response",
"\x7b\x7d")` raises an uncaught `AttributeError` (the `except` clause only
catches `URLError`, `JSONDecodeError` and `TimeoutError`), so the call *does*
raise and story creation is blocked.  The claim as stated is false. -/
theorem c8_nonobject_body_raises :
    run_optional_llm_review reviewSettings listLoads (NetOutcome.ok "[]") =
      .error "AttributeError: object has no attribute 'get'" :=
  rfl

/-- C8 amended: when disabled the review returns no verdict; when enabled it
returns the fixed unavailable verdict on transport/timeout failure and on
either JSON-parse failure, the parsed object itself when the inner payload is
an object, and the fixed invalid verdict when the inner payload parses to a
non-object; but a response body parsing to a non-object raises an uncaught
AttributeError, and a non-string `response` field raises an uncaught
TypeError. -/
theorem c8_review_outcomes (st : Settings) (loads : String → Option PyVal) :
    (st.safety_critic_enable_llm_review = false →
      ∀ net, run_optional_llm_review st loads net = .ok Option.none) ∧
    (st.safety_critic_enable_llm_review = true →
      run_optional_llm_review st loads NetOutcome.fail =
        .ok (Option.some unavailableVerdict) ∧
      (∀ raw, loads raw = Option.none →
        run_optional_llm_review st loads (NetOutcome.ok raw) =
          .ok (Option.some unavailableVerdict)) ∧
      (∀ raw fields rt, loads raw = Option.some (.vDict fields) →
        dictGetD fields "response" (.vStr "\x7b\x7d") = .vStr rt →
        (loads rt = Option.none →
          run_optional_llm_review st loads (NetOutcome.ok raw) =
            .ok (Option.some unavailableVerdict)) ∧
        (∀ pf, loads rt = Option.some (.vDict pf) →
          run_optional_llm_review st loads (NetOutcome.ok raw) =
            .ok (Option.some (.vDict pf))) ∧
        (∀ parsed, loads rt = Option.some parsed → isVDictB parsed = false →
          run_optional_llm_review st loads (NetOutcome.ok raw) =
            .ok (Option.some invalidVerdict))) ∧
      (∀ raw body, loads raw = Option.some body → isVDictB body = false →
        run_optional_llm_review st loads (NetOutcome.ok raw) =
          .error "AttributeError: object has no attribute 'get'") ∧
      (∀ raw fields, loads raw = Option.some (.vDict fields) →
        isVStrB (dictGetD fields "response" (.vStr "\x7b\x7d")) = false →
        run_optional_llm_review st loads (NetOutcome.ok raw) =
          .error "TypeError: the JSON object must be str, bytes or bytearray")) := by
  constructor
  · intro hd net
    simp [run_optional_llm_review, hd]
  · intro he
    refine ⟨by simp [run_optional_llm_review, he], ?_, ?_, ?_, ?_⟩
    · intro raw hraw
      simp [run_optional_llm_review, he, hraw]
    · intro raw fields rt hraw hrt
      refine ⟨?_, ?_, ?_⟩
      · intro hrt2
        simp [run_optional_llm_review, he, hraw, hrt, hrt2]
      · intro pf hrt2
        simp [run_optional_llm_review, he, hraw, hrt, hrt2]
      · intro parsed hrt2 hpd
        cases parsed with
        | vDict d => simp [isVDictB] at hpd
        | vNone => simp [run_optional_llm_review, he, hraw, hrt, hrt2]
        | vBool b => simp [run_optional_llm_review, he, hraw, hrt, hrt2]
        | vInt n => simp [run_optional_llm_review, he, hraw, hrt, hrt2]
        | vStr s => simp [run_optional_llm_review, he, hraw, hrt, hrt2]
        | vList xs => simp [run_optional_llm_review, he, hraw, hrt, hrt2]
    · intro raw body hraw hbd
      cases body with
      | vDict d => simp [isVDictB] at hbd
      | vNone => simp [run_optional_llm_review, he, hraw]
      | vBool b => simp [run_optional_llm_review, he, hraw]
      | vInt n => simp [run_optional_llm_review, he, hraw]
      | vStr s => simp [run_optional_llm_review, he, hraw]
      | vList xs => simp [run_optional_llm_review, he, hraw]
    · intro raw fields hraw hrt
      cases hv : dictGetD fields "response" (.vStr "\x7b\x7d") with
      | vStr s => rw [hv] at hrt; simp [isVStrB] at hrt
      | vNone => simp [run_optional_llm_review, he, hraw, hv]
      | vBool b => simp [run_optional_llm_review, he, hraw, hv]
      | vInt n => simp [run_optional_llm_review, he, hraw, hv]
      | vList xs => simp [run_optional_llm_review, he, hraw, hv]
      | vDict d => simp [run_optional_llm_review, he, hraw, hv]

/-- C8 witness: with the review enabled and the endpoint unreachable, the
result is exactly the fixed unavailable verdict. -/
theorem c8_review_outcomes_witness :
    run_optional_llm_review reviewSettings listLoads NetOutcome.fail =
      .ok (Option.some unavailableVerdict) :=
  ((c8_review_outcomes reviewSettings listLoads).2 rfl).1

/-! ### Claim C9 (idempotence) -/

/-- A choice dict in the exact shape the critic's cleaning pass emits, whose
fields the pass maps to themselves: non-empty id, non-empty stripped text that
the substitution pass leaves unchanged, boolean correct. -/
def isCompliantChoice (c : PyVal) : Bool :=
  match c with
  | .vDict [("id", .vStr i), ("text", .vStr t), ("correct", .vBool _)] =>
    !i.data.isEmpty && !t.data.isEmpty && decide (pyStrip t = t) &&
      decide (sanitize_text t = (t, []))
  | _ => false

/-- A choices value the per-slide pass maps to itself: `None` or a non-list
value (both passed through), or a list of at most two compliant choice
dicts. -/
def isCompliantChoicesVal (cv : PyVal) : Bool :=
  match cv with
  | .vList cs => !cs.isEmpty && decide (cs.length ≤ 2) && cs.all isCompliantChoice
  | _ => true

/-- A slide in the exact shape the critic emits, whose text survives the text
pass unchanged under the given settings. -/
def isCompliantSlide (st : Settings) (s : PyDict) : Bool :=
  match s with
  | [("position", .vInt _), ("text", .vStr t), ("choices", cv)] =>
    !t.data.isEmpty && decide (pyStrip t = t) && decide (sanitize_text t = (t, [])) &&
      decide (count_scary_terms t ≤ st.safety_critic_max_scary_terms_per_slide) &&
      decide (strLen t ≤ st.safety_critic_max_text_length) && isCompliantChoicesVal cv
  | _ => false

/-- The first slide with at least two choices (the one the branch coercion
rewrites) is already a two-choice branch with exactly one correct entry. -/
def firstBranchTwoOne : List PyDict → Bool
  | [] => true
  | s :: rest => if slideHasBranch s then slideTwoOneCorrect s else firstBranchTwoOne rest

/-- An already-sanitized, compliant slide set: non-empty, all slides compliant,
positions sequential `1..N`, at least one two-choice branch whose first
occurrence has exactly one correct entry, and a trusted-adult reference
present. -/
def isCompliantSlides (st : Settings) (l : List PyDict) : Bool :=
  !l.isEmpty && l.all (isCompliantSlide st) && positionsFromB 0 l &&
    l.any slideHasBranch && firstBranchTwoOne l && has_trusted_adult_reference l

theorem isCompliantChoice_shape {c : PyVal} (h : isCompliantChoice c = true) :
    ∃ i t b, c = .vDict [("id", PyVal.vStr i), ("text", .vStr t), ("correct", .vBool b)] ∧
      i.data.isEmpty = false ∧ t.data.isEmpty = false ∧ pyStrip t = t ∧
      sanitize_text t = (t, []) := by
  unfold isCompliantChoice at h
  split at h
  · rename_i i t b
    simp only [Bool.and_eq_true, Bool.not_eq_true', decide_eq_true_eq] at h
    exact ⟨i, t, b, rfl, h.1.1.1, h.1.1.2, h.1.2, h.2⟩
  · exact absurd h (by simp)

theorem isCompliantSlide_shape {st : Settings} {s : PyDict}
    (h : isCompliantSlide st s = true) :
    ∃ p t cv, s = [("position", PyVal.vInt p), ("text", .vStr t), ("choices", cv)] ∧
      t.data.isEmpty = false ∧ pyStrip t = t ∧ sanitize_text t = (t, []) ∧
      count_scary_terms t ≤ st.safety_critic_max_scary_terms_per_slide ∧
      strLen t ≤ st.safety_critic_max_text_length ∧ isCompliantChoicesVal cv = true := by
  unfold isCompliantSlide at h
  split at h
  · rename_i p t cv
    simp only [Bool.and_eq_true, Bool.not_eq_true', decide_eq_true_eq] at h
    exact ⟨p, t, cv, rfl, h.1.1.1.1.1, h.1.1.1.1.2, h.1.1.1.2, h.1.1.2, h.1.2, h.2⟩
  · exact absurd h (by simp)

theorem cleanChoice_id {i t : String} {b : Bool} (idx : Nat)
    (hi : i.data.isEmpty = false) (ht : t.data.isEmpty = false)
    (hsan : sanitize_text t = (t, [])) :
    cleanChoice idx [("id", .vStr i), ("text", .vStr t), ("correct", .vBool b)] =
      ([("id", .vStr i), ("text", .vStr t), ("correct", .vBool b)], []) := by
  unfold cleanChoice
  simp [dictGet, dictGetD, dictGet?, hsan, pyStr, pyTruthy, hi, ht]

theorem cleanChoices_id {cs : List PyVal} (slideIdx : Nat) :
    ∀ j, cs.all isCompliantChoice = true →
      (cleanChoices slideIdx j cs).1.map PyVal.vDict = cs ∧
      (cleanChoices slideIdx j cs).2 = [] := by
  induction cs with
  | nil => exact fun j _ => ⟨rfl, rfl⟩
  | cons c rest ih =>
    intro j h
    simp only [List.all_cons, Bool.and_eq_true] at h
    obtain ⟨i, t, b, hc, hi, ht, -, hsan⟩ := isCompliantChoice_shape h.1
    subst hc
    obtain ⟨ih1, ih2⟩ := ih (j + 1) h.2
    simp only [cleanChoices, cleanChoice_id j hi ht hsan]
    constructor
    · simp only [List.map_cons, ih1]
    · simp only [List.map_nil, List.nil_append, ih2]

theorem processChoices_id {p : Int} {t : String} {cv : PyVal} (idx : Nat)
    (hcv : isCompliantChoicesVal cv = true) :
    processChoices idx
      [("position", PyVal.vInt p), ("text", .vStr t), ("choices", cv)] = (cv, []) := by
  unfold processChoices
  have hget : dictGetD [("position", PyVal.vInt p), ("text", PyVal.vStr t), ("choices", cv)]
      "choices" .vNone = cv := rfl
  rw [hget]
  cases cv with
  | vList cs =>
    simp only [isCompliantChoicesVal, Bool.and_eq_true, decide_eq_true_eq,
      Bool.not_eq_true'] at hcv
    obtain ⟨⟨hne, hlen⟩, hall⟩ := hcv
    simp only []
    rw [List.take_of_length_le hlen]
    obtain ⟨h1, h2⟩ := cleanChoices_id idx 0 hall
    simp only [h2]
    have hcl : ¬ (cleanChoices idx 0 cs).1.isEmpty = true := by
      intro he
      rw [List.isEmpty_iff] at he
      rw [he] at h1
      simp only [List.map_nil] at h1
      rw [← h1] at hne
      simp at hne
    simp only [hcl, Bool.false_eq_true, if_false, h1]
  | vNone => rfl
  | vBool b => rfl
  | vInt n => rfl
  | vStr s => rfl
  | vDict d => rfl

theorem processText_id {st : Settings} {p : Int} {t : String} {cv : PyVal} (idx : Nat)
    (ht : t.data.isEmpty = false) (hstrip : pyStrip t = t)
    (hsan : sanitize_text t = (t, []))
    (hscary : count_scary_terms t ≤ st.safety_critic_max_scary_terms_per_slide)
    (hlen : strLen t ≤ st.safety_critic_max_text_length) :
    processText st idx
      [("position", PyVal.vInt p), ("text", .vStr t), ("choices", cv)] = .ok (t, []) := by
  unfold processText
  have hget : pyStrip (pyStr (dictGetD
      [("position", PyVal.vInt p), ("text", PyVal.vStr t), ("choices", cv)]
      "text" (.vStr ""))) = t := by
    simp [dictGetD, dictGet?, pyStr, hstrip]
  rw [hget]
  have h1 : ¬ (st.safety_critic_max_scary_terms_per_slide < count_scary_terms t) := by omega
  have h2 : ¬ (st.safety_critic_max_text_length < strLen t) := by omega
  simp [ht, hsan, h1, h2]

theorem processSlide_id {st : Settings} {s : PyDict} (idx : Nat)
    (h : isCompliantSlide st s = true)
    (hpos : dictGet s "position" = .vInt (idx + 1)) :
    processSlide st idx s = .ok (s, []) := by
  obtain ⟨p, t, cv, hs, ht, hstrip, hsan, hscary, hlen, hcv⟩ := isCompliantSlide_shape h
  subst hs
  have hp : p = (idx + 1 : Int) := by
    have : PyVal.vInt p = PyVal.vInt (idx + 1) := hpos
    injection this
  subst hp
  unfold processSlide
  rw [processText_id idx ht hstrip hsan hscary hlen, processChoices_id idx hcv]
  rfl

theorem processSlides_id {st : Settings} {l : List PyDict} :
    ∀ i, l.all (isCompliantSlide st) = true → positionsFromB i l = true →
      processSlides st i l = .ok (l, []) := by
  induction l with
  | nil => exact fun i _ _ => rfl
  | cons s rest ih =>
    intro i hall hpos
    simp only [List.all_cons, Bool.and_eq_true] at hall
    simp only [positionsFromB, Bool.and_eq_true] at hpos
    have hget : dictGet s "position" = .vInt (i + 1) := by
      obtain ⟨p, t, cv, hs, -⟩ := isCompliantSlide_shape hall.1
      subst hs
      have hp : p = (i + 1 : Int) := by
        have hbeq : (p == (i + 1 : Int)) = true := by
          simpa [dictGet, dictGetD, dictGet?, pyValBEq] using hpos.1
        exact eq_of_beq hbeq
      subst hp
      rfl
    unfold processSlides
    rw [processSlide_id i hall.1 hget, ih (i + 1) hall.2 hpos.2]
    rfl

theorem fixChoice_id {i t : String} {b : Bool} (idx : Nat)
    (hi : i.data.isEmpty = false) (ht : t.data.isEmpty = false) (hstrip : pyStrip t = t) :
    fixChoice idx (.vDict [("id", .vStr i), ("text", .vStr t), ("correct", .vBool b)]) =
      [("id", .vStr i), ("text", .vStr t), ("correct", .vBool b)] := by
  unfold fixChoice
  simp [dictGet, dictGetD, dictGet?, dictSet, pyStr, pyTruthy, hi, ht, hstrip]

theorem coerceFixSlide_id {st : Settings} {s : PyDict}
    (h : isCompliantSlide st s = true) (hb : slideHasBranch s = true)
    (h21 : slideTwoOneCorrect s = true) :
    coerceFixSlide s = s := by
  obtain ⟨p, t, cv, hs, -, -, -, -, -, hcv⟩ := isCompliantSlide_shape h
  subst hs
  have hgetc : dictGet [("position", PyVal.vInt p), ("text", PyVal.vStr t),
      ("choices", cv)] "choices" = cv := rfl
  unfold slideHasBranch at hb
  rw [hgetc] at hb
  unfold slideTwoOneCorrect at h21
  rw [hgetc] at h21
  cases cv with
  | vList cs =>
    simp only [isCompliantChoicesVal, Bool.and_eq_true, decide_eq_true_eq] at hcv
    obtain ⟨⟨-, hlen⟩, hall⟩ := hcv
    match cs, hb, hlen, hall, h21 with
    | [c1, c2], _, _, hall, h21 =>
      simp only [List.all_cons, List.all_nil, Bool.and_eq_true, and_true] at hall
      obtain ⟨i1, t1, b1, hc1, hi1, ht1, hs1, -⟩ := isCompliantChoice_shape hall.1
      obtain ⟨i2, t2, b2, hc2, hi2, ht2, hs2, -⟩ := isCompliantChoice_shape hall.2
      subst hc1
      subst hc2
      simp only [choiceCorrectTrue] at h21
      have hb1 : dictGet [("id", PyVal.vStr i1), ("text", PyVal.vStr t1),
          ("correct", PyVal.vBool b1)] "correct" = .vBool b1 := rfl
      have hb2 : dictGet [("id", PyVal.vStr i2), ("text", PyVal.vStr t2),
          ("correct", PyVal.vBool b2)] "correct" = .vBool b2 := rfl
      rw [hb1, hb2] at h21
      simp only [pyValBEq_vBool_vBool] at h21
      have hneq : (b1 == b2) = false := by
        cases b1 <;> cases b2 <;> simp_all
      unfold coerceFixSlide
      rw [hgetc]
      simp only [fixChoice_id 0 hi1 ht1 hs1, fixChoice_id 1 hi2 ht2 hs2, hb1, hb2,
        pyValBEq_vBool_vBool, hneq, Bool.false_eq_true, if_false]
      rfl
  | vNone => simp at hb
  | vBool b' => simp at hb
  | vInt n => simp at hb
  | vStr s' => simp at hb
  | vDict d => simp at hb

theorem coerceFind_id {st : Settings} {l : List PyDict}
    (hall : l.all (isCompliantSlide st) = true)
    (hfb : firstBranchTwoOne l = true) (hany : l.any slideHasBranch = true) :
    coerceFind l = Option.some l := by
  induction l with
  | nil => simp at hany
  | cons s rest ih =>
    simp only [List.all_cons, Bool.and_eq_true] at hall
    by_cases hb : slideHasBranch s = true
    · have h21 : slideTwoOneCorrect s = true := by
        unfold firstBranchTwoOne at hfb
        rwa [if_pos hb] at hfb
      simp only [coerceFind, hb, if_true, coerceFixSlide_id hall.1 hb h21]
    · have hfb' : firstBranchTwoOne rest = true := by
        unfold firstBranchTwoOne at hfb
        rwa [if_neg hb] at hfb
      have hany' : rest.any slideHasBranch = true := by
        simp only [List.any_cons, Bool.or_eq_true] at hany
        exact hany.resolve_left hb
      simp only [coerceFind, hb, Bool.false_eq_true, if_false,
        ih hall.2 hfb' hany', Option.map_some']

theorem reposition_id {st : Settings} {l : List PyDict} :
    ∀ i, l.all (isCompliantSlide st) = true → positionsFromB i l = true →
      reposition i l = l := by
  induction l with
  | nil => exact fun i _ _ => rfl
  | cons s rest ih =>
    intro i hall hpos
    simp only [List.all_cons, Bool.and_eq_true] at hall
    simp only [positionsFromB, Bool.and_eq_true] at hpos
    obtain ⟨p, t, cv, hs, -⟩ := isCompliantSlide_shape hall.1
    subst hs
    have hp : p = (i + 1 : Int) := by
      have hbeq : (p == (i + 1 : Int)) = true := by
        simpa [dictGet, dictGetD, dictGet?, pyValBEq] using hpos.1
      exact eq_of_beq hbeq
    subst hp
    simp only [reposition, dictSet, ih (i + 1) hall.2 hpos.2]
    simp

/-- C9 counterexample input: a single slide whose text is longer than the
default 320-character cap. -/
def c9Input : List PyDict := [[("text", .vStr (String.mk (List.replicate 324 'a')))]]

set_option maxRecDepth 400000 in
/-- C9 counterexample: the claim says a second run of the enabled critic on
the slide set it produced yields no additional issues and an unchanged slide
list.  On a 324-character slide text with the default 320-character cap, the
first run truncates and appends "...", leaving 323 characters — still over the
cap — so the second run records a fresh "trimmed long text" issue.  The claim
as stated is false. -/
theorem c9_second_run_issue :
    scIssues (apply_safety_critic defaultSettings noLoads NetOutcome.fail
      (scSlides (apply_safety_critic defaultSettings noLoads NetOutcome.fail c9Input))) =
      ["slide_1: trimmed long text"] :=
  rfl

/-- C9 amended: on an already-sanitized, compliant slide set — slides in the
critic's output shape with stripped non-empty texts that the substitution pass
fixes, scary counts and lengths within the configured bounds, sequential
positions, cleaned choice lists, a first branch with exactly one correct
choice, and a trusted-adult reference — a second run of the enabled critic
(with the optional review off) returns exactly the same slide list and no
issues.  The first run's output satisfies all of this except possibly the
length cap: its truncation marker or the trusted-adult append can leave a text
over the cap, which is what the counterexample exploits. -/
theorem c9_idempotent_on_compliant (st : Settings) (loads : String → Option PyVal)
    (net : NetOutcome) (l : List PyDict)
    (hen : st.safety_critic_enabled = true)
    (hrev : st.safety_critic_enable_llm_review = false)
    (hc : isCompliantSlides st l = true) :
    apply_safety_critic st loads net l = .ok ⟨l, [], Option.none⟩ := by
  simp only [isCompliantSlides, Bool.and_eq_true, Bool.not_eq_true'] at hc
  obtain ⟨⟨⟨⟨⟨hne, hall⟩, hpos⟩, hany⟩, hfb⟩, href⟩ := hc
  have hrev' : run_optional_llm_review st loads net = .ok Option.none := by
    unfold run_optional_llm_review
    rw [hrev]
    rfl
  unfold apply_safety_critic
  rw [hen]
  simp only [Bool.not_true, Bool.false_eq_true, if_false]
  rw [if_neg (by simp [hne])]
  rw [processSlides_id 0 hall hpos]
  simp only [Bind.bind, Except.bind]
  unfold coerce_two_choice_branch
  rw [coerceFind_id hall hfb hany]
  simp only []
  rw [reposition_id 0 hall hpos]
  unfold ensureTrustedAdult
  rw [href]
  simp only [if_true]
  rw [hrev']

/-- An already-compliant two-slide set for the C9 witness. -/
def c9CompliantSlides : List PyDict :=
  [[("position", .vInt 1), ("text", .vStr "The child tells a teacher."), ("choices", .vNone)],
   [("position", .vInt 2), ("text", .vStr "A choice appears."),
    ("choices", .vList
      [.vDict [("id", .vStr "a"), ("text", .vStr "Ask a parent."), ("correct", .vBool true)],
       .vDict [("id", .vStr "b"), ("text", .vStr "Hide."), ("correct", .vBool false)]])]]

/-- C9 witness: the enabled critic maps the concrete compliant set to itself
with no issues. -/
theorem c9_idempotent_on_compliant_witness :
    apply_safety_critic defaultSettings noLoads NetOutcome.fail c9CompliantSlides =
      .ok ⟨c9CompliantSlides, [], Option.none⟩ :=
  c9_idempotent_on_compliant defaultSettings noLoads NetOutcome.fail c9CompliantSlides
    rfl rfl (by decide)

end SafePath
